import Mathlib

/-!
Verification development for the logical_backup replication engine
(pkg/logicalbackup/logicalbackup.go and pkg/config).

The engine consumes decoded logical-replication messages, forwards them to
per-table writers, and maintains the flush bookkeeping over LSNs.  The
sequential receive loop is embedded shallowly: machine integers become Nat
(uint64 wrap-around is written out explicitly where it matters), Go maps
become association lists, and the file-system side effects of a step are
collected into an explicit operation trace.
-/

set_option linter.unusedVariables false

namespace LogicalBackup

/-- Log sequence number: a 64-bit unsigned WAL position (dbutils.LSN),
represented as a Nat; wrap-around is made explicit where the source relies
on uint64 arithmetic. -/
abbrev LSN := Nat

/-- Table object identifier (dbutils.OID). -/
abbrev OID := Nat

/-- Raw bytes of a decoded logical message ([]byte in the source). -/
abbrev Raw := List Nat

/-- Modelled from the spec: dbutils.LSN.IsValid (pkg/dbutils is not under
src/); the spec says zero is the distinguished invalid value. -/
def lsnIsValid (l : LSN) : Bool := l != 0

/-- The cmdType enumeration of logicalbackup.go. -/
inductive CmdType where
  | cInsert
  | cUpdate
  | cDelete
  | cBegin
  | cCommit
  | cRelation
  | cType
deriving DecidableEq, Repr

/-- message.NamespacedName: a schema-qualified table name. -/
structure NamespacedName where
  Namespace : String
  Name : String
deriving DecidableEq, Repr

/-- NameAtLSN from logicalbackup.go: the name a table had starting at the
given commit LSN. -/
structure NameAtLSN where
  Name : NamespacedName
  Lsn : LSN
deriving DecidableEq, Repr

/-- One framed record written to a table writer: the command kind, the raw
message bytes, and the two LSN tags passed to WriteDelta
(transactionCommitLSN and currentLSN). -/
structure Rec where
  cmd : CmdType
  raw : Raw
  commitLSN : LSN
  lsn : LSN
deriving DecidableEq, Repr

/-- Modelled from the spec: the per-table writer state of pkg/tablebackup
(not under src/): the append-only record stream plus the flush bookkeeping
of spec section 4.2 (last_seen_lsn, flushed_lsn, flush_required, and the
record counter driving rotation). -/
structure TableState where
  stream : List Rec
  textID : NamespacedName
  lastSeenLSN : LSN
  flushedLSN : LSN
  flushRequired : Bool
  deltaCount : Nat
deriving DecidableEq, Repr

/-- The configuration fields of pkg/config that the embedded engine
operations read. -/
structure Config where
  stagingDir : String
  archiveDir : String
  trackNewTables : Bool
  deltasPerFile : Nat
deriving DecidableEq, Repr

/-- Association-list lookup standing in for a Go map read (first match). -/
def getAssoc {α : Type} (k : OID) : List (OID × α) → Option α
  | [] => none
  | p :: t => if p.1 = k then some p.2 else getAssoc k t

/-- Association-list insert-or-replace standing in for a Go map write. -/
def setAssoc {α : Type} (k : OID) (v : α) : List (OID × α) → List (OID × α)
  | [] => [(k, v)]
  | p :: t => if p.1 = k then (k, v) :: t else p :: setAssoc k v t

/-- Update the value at a key in place; no-op when the key is absent. -/
def updateAssoc {α : Type} (k : OID) (f : α → α) : List (OID × α) → List (OID × α)
  | [] => []
  | p :: t => if p.1 = k then (p.1, f p.2) :: t else p :: updateAssoc k f t

/-- Association-list delete standing in for a Go map delete. -/
def eraseAssoc {α : Type} (k : OID) : List (OID × α) → List (OID × α)
  | [] => []
  | p :: t => if p.1 = k then eraseAssoc k t else p :: eraseAssoc k t

/-- The engine state of the LogicalBackup struct: the fields the sequential
receive loop reads and writes (connections, queue, counters and metrics
are omitted). -/
structure EngineState where
  backupTables : List (OID × TableState)
  relationMessages : List (OID × Raw)
  txBeginRelMsg : List OID
  beginMsg : Raw
  typeMsg : Option Raw
  transactionCommitLSN : LSN
  currentLSN : LSN
  latestFlushLSN : LSN
  lastTxId : Int
  nameChangeHistory : List (OID × List NameAtLSN)
  isChanged : Bool
deriving DecidableEq, Repr

/-- File-system and transport operations a handler step performs, recorded
as an explicit trace. -/
inductive FsOp where
  | openTruncWrite (dir file : String)
  | syncFileAndDir (dir file : String)
  | renameFile (dir fromFile toFile : String)
  | sendStandbyStatus (lsn : LSN)
deriving DecidableEq, Repr

/-- The OidNameMapFile constant. -/
def oidNameMapFile : String := "oid2name.yaml"

/-- The stateFile constant. -/
def stateFileName : String := "state.yaml"

/-- baseDir: the staging directory when configured, the archive directory
otherwise. -/
def baseDir (cfg : Config) : String :=
  if cfg.stagingDir != "" then cfg.stagingDir else cfg.archiveDir

/-- Modelled from the spec: tablebackup WriteDelta (spec section 4.2):
append a framed record, set last_seen_lsn to the record LSN, set
flush_required, and rotate the segment once deltasPerFile records have been
written (rotation copies last_seen_lsn into flushed_lsn and clears
flush_required). -/
def WriteDelta (cfg : Config) (t : TableState) (r : Rec) : TableState :=
  let t1 : TableState :=
    { t with stream := t.stream ++ [r], lastSeenLSN := r.lsn,
             flushRequired := true, deltaCount := t.deltaCount + 1 }
  if t1.deltaCount = cfg.deltasPerFile then
    { t1 with flushedLSN := t1.lastSeenLSN, flushRequired := false, deltaCount := 0 }
  else t1

/-- Modelled from the spec: tablebackup GetFlushLSN returns the pair
(flushed_lsn, flush_required). -/
def GetFlushLSN (t : TableState) : LSN × Bool := (t.flushedLSN, t.flushRequired)

/-- WriteCommandDataForTable: write one framed record for the given table,
tagged with transactionCommitLSN and currentLSN (byte and message counters
and metrics are omitted). -/
def WriteCommandDataForTable (cfg : Config) (s : EngineState) (oid : OID)
    (cmd : CmdType) (msg : Raw) : EngineState :=
  let rec0 : Rec := ⟨cmd, msg, s.transactionCommitLSN, s.currentLSN⟩
  let tabs := updateAssoc oid (fun t => WriteDelta cfg t rec0) s.backupTables
  { s with backupTables := tabs }

/-- processDMLMessage: drop the message when the table is untracked;
otherwise lazily write the transaction begin message (recording the table
as participating), the pending type message, the pending relation message,
and finally the DML itself. -/
def processDMLMessage (cfg : Config) (s : EngineState) (oid : OID)
    (cmd : CmdType) (msg : Raw) : EngineState :=
  match getAssoc oid s.backupTables with
  | none => s
  | some _ =>
    let s1 :=
      if s.txBeginRelMsg.contains oid then s
      else
        let sb := WriteCommandDataForTable cfg s oid CmdType.cBegin s.beginMsg
        { sb with txBeginRelMsg := sb.txBeginRelMsg ++ [oid] }
    let s2 :=
      match s1.typeMsg with
      | some tm =>
          let st := WriteCommandDataForTable cfg s1 oid CmdType.cType tm
          { st with typeMsg := none }
      | none => s1
    let s3 :=
      match getAssoc oid s2.relationMessages with
      | some rm =>
          let sr := WriteCommandDataForTable cfg s2 oid CmdType.cRelation rm
          { sr with relationMessages := eraseAssoc oid s2.relationMessages }
      | none => s2
    WriteCommandDataForTable cfg s3 oid cmd msg

/-- maybeRegisterNewName: append (name, transactionCommitLSN) to the OID's
history when the history is missing or its last entry's name differs; mark
the history dirty and push the new name into the live writer's text
identifier.  (In the source the push goes through GetIfExists; a missing
writer would be a nil method call, so the update is a no-op here and
reachable call sites always have the writer registered.) -/
def maybeRegisterNewName (s : EngineState) (oid : OID) (name : NamespacedName) : EngineState :=
  let hist := (getAssoc oid s.nameChangeHistory).getD []
  if (hist.getLast?).map NameAtLSN.Name ≠ some name then
    { s with
      nameChangeHistory :=
        setAssoc oid (hist ++ [⟨name, s.transactionCommitLSN⟩]) s.nameChangeHistory,
      isChanged := true,
      backupTables := updateAssoc oid (fun t => { t with textID := name }) s.backupTables }
  else s

/-- Modelled from the spec: tablebackup.New creates a writer with an empty
stream for the named table. -/
def newTableState (name : NamespacedName) : TableState :=
  { stream := [], textID := name, lastSeenLSN := 0, flushedLSN := 0,
    flushRequired := false, deltaCount := 0 }

/-- registerNewTable: honour trackNewTables; on success add a fresh writer
to the registry and report true. -/
def registerNewTable (cfg : Config) (s : EngineState) (oid : OID)
    (name : NamespacedName) : Bool × EngineState :=
  if !cfg.trackNewTables then (false, s)
  else (true, { s with backupTables := setAssoc oid (newTableState name) s.backupTables })

/-- Stash the raw relation message for the table, to be written before its
next DML. -/
def stashRelation (s : EngineState) (oid : OID) (raw : Raw) : EngineState :=
  { s with relationMessages := setAssoc oid raw s.relationMessages }

/-- processRelationMessage: register an unknown table when trackNewTables
allows it, update the name history, and stash the raw relation bytes. -/
def processRelationMessage (cfg : Config) (s : EngineState) (oid : OID)
    (name : NamespacedName) (raw : Raw) : EngineState :=
  if (getAssoc oid s.backupTables).isSome then
    stashRelation (maybeRegisterNewName s oid name) oid raw
  else
    match registerNewTable cfg s oid name with
    | (false, s1) => s1
    | (true, s1) => stashRelation (maybeRegisterNewName s1 oid name) oid raw

/-- getNextFlushLSN: start from the transaction commit LSN and take the
minimum over every registry writer whose GetFlushLSN reports that a flush
is required. -/
def getNextFlushLSN (s : EngineState) : LSN :=
  s.backupTables.foldl
    (fun result p =>
      let fl := GetFlushLSN p.2
      if fl.2 ∧ fl.1 < result then fl.1 else result)
    s.transactionCommitLSN

/-- flushOidNameMap: nothing to do when the history is clean; otherwise
open-truncate-write oid2name.yaml under baseDir and sync the file and its
directory (utils.SyncFileAndDirectory), clearing the dirty bit. -/
def flushOidNameMapOps (cfg : Config) (s : EngineState) : EngineState × List FsOp :=
  if !s.isChanged then (s, [])
  else
    ({ s with isChanged := false },
     [FsOp.openTruncWrite (baseDir cfg) oidNameMapFile,
      FsOp.syncFileAndDir (baseDir cfg) oidNameMapFile])

/-- writeRestartLSN: persist the state file to the staging directory when
configured, and always to the archive directory, syncing file and
directory each time. -/
def writeRestartLSNOps (cfg : Config) : List FsOp :=
  (if cfg.stagingDir != "" then
    [FsOp.openTruncWrite cfg.stagingDir stateFileName,
     FsOp.syncFileAndDir cfg.stagingDir stateFileName]
   else []) ++
  [FsOp.openTruncWrite cfg.archiveDir stateFileName,
   FsOp.syncFileAndDir cfg.archiveDir stateFileName]

/-- One iteration of the commit branch's loop: write the commit record to
the writer of one participating table.  (The source looks the writer up
with GetIfExists and writes unconditionally; a missing writer would be a
nil method call, shown unreachable by the participation invariant.) -/
def commitStep (cfg : Config) (raw : Raw) (acc : EngineState) (oid : OID) : EngineState :=
  match getAssoc oid acc.backupTables with
  | some _ => WriteCommandDataForTable cfg acc oid CmdType.cCommit raw
  | none => acc

/-- The commit branch's loop: write the commit record to every writer of a
participating table. -/
def commitWriteRecords (cfg : Config) (s : EngineState) (raw : Raw) : EngineState :=
  s.txBeginRelMsg.foldl (commitStep cfg raw) s

/-- The commit branch's flush advance: compute the candidate flush LSN and,
only when it is strictly greater than the current latestFlushLSN, adopt it,
persist the state file and send a standby status. -/
def flushAdvance (cfg : Config) (s : EngineState) : EngineState × List FsOp :=
  let candidateFlushLSN := getNextFlushLSN s
  if s.latestFlushLSN < candidateFlushLSN then
    ({ s with latestFlushLSN := candidateFlushLSN },
     writeRestartLSNOps cfg ++ [FsOp.sendStandbyStatus candidateFlushLSN])
  else (s, [])

/-- The Commit case of the handler: move currentLSN to the commit message
LSN, write the commit record to all participating tables, flush the
OID-name map when dirty, then advance the flush LSN when possible. -/
def handleCommit (cfg : Config) (s : EngineState) (lsn : LSN) (raw : Raw) :
    EngineState × List FsOp :=
  let s1 := commitWriteRecords cfg { s with currentLSN := lsn } raw
  let p2 := flushOidNameMapOps cfg s1
  let p3 := flushAdvance cfg p2.1
  (p3.1, p2.2 ++ p3.2)

/-- The decoded logical messages dispatched by the handler. -/
inductive Msg where
  | Relation (oid : OID) (name : NamespacedName) (raw : Raw)
  | Insert (oid : OID) (raw : Raw)
  | Update (oid : OID) (raw : Raw)
  | Delete (oid : OID) (raw : Raw)
  | Begin (xid : Int) (finalLSN : LSN) (raw : Raw)
  | Commit (lsn : LSN) (raw : Raw) (timestamp : Int)
  | Origin
  | Truncate
  | TypeMessage (raw : Raw)
deriving DecidableEq, Repr

/-- handler: set currentLSN to the frame's wal_start and dispatch on the
message kind.  Origin and Truncate are accepted and ignored; the Type case
is an empty TODO in the source, so typeMsg is never populated. -/
def handler (cfg : Config) (s0 : EngineState) (m : Msg) (walStart : LSN) :
    EngineState × List FsOp :=
  let s := { s0 with currentLSN := walStart }
  match m with
  | Msg.Relation oid name raw => (processRelationMessage cfg s oid name raw, [])
  | Msg.Insert oid raw => (processDMLMessage cfg s oid CmdType.cInsert raw, [])
  | Msg.Update oid raw => (processDMLMessage cfg s oid CmdType.cUpdate raw, [])
  | Msg.Delete oid raw => (processDMLMessage cfg s oid CmdType.cDelete raw, [])
  | Msg.Begin xid finalLSN raw =>
      ({ s with lastTxId := xid, transactionCommitLSN := finalLSN,
                txBeginRelMsg := [], beginMsg := raw }, [])
  | Msg.Commit lsn raw ts => handleCommit cfg s lsn raw
  | Msg.Origin => (s, [])
  | Msg.Truncate => (s, [])
  | Msg.TypeMessage raw => (s, [])

/-- One WAL frame of the receive loop (logicalDecoding): a frame whose
wal_start is valid and at or below the flush LSN is skipped before
decoding; every other frame is decoded and dispatched to the handler. -/
def walFrameStep (cfg : Config) (s : EngineState) (walStart : LSN) (m : Msg) :
    EngineState × List FsOp :=
  if lsnIsValid walStart ∧ walStart ≤ s.latestFlushLSN then (s, [])
  else handler cfg s m walStart

/-- prepareDB, slot-creation branch: latestFlushLSN := initialLSN - 1 on
the 64-bit unsigned LSN.  Go uint64 subtraction wraps at zero, written here
as addition of 2 ^ 64 - 1 modulo 2 ^ 64. -/
def createSlotFlushLSN (initialLSN : Nat) : Nat :=
  (initialLSN + 2 ^ 64 - 1) % 2 ^ 64

/-- The engine state as initialized by New: empty registry, empty pending
buffers, clean name history. -/
def initialEngineState : EngineState :=
  { backupTables := [], relationMessages := [], txBeginRelMsg := [], beginMsg := [],
    typeMsg := none, transactionCommitLSN := 0, currentLSN := 0, latestFlushLSN := 0,
    lastTxId := 0, nameChangeHistory := [], isChanged := false }

/-- Go integer remainder truncates toward zero; Int.tdiv is Lean's
truncated division, so this is exactly the Go expression a % b for int64
operands. -/
def goRem (a b : Int) : Int := a - b * Int.tdiv a b

/-- time.Duration.Truncate: round toward zero to a multiple of m; m not
positive returns d unchanged (Go: if m <= 0 return d; return d - d%m). -/
def durationTruncate (d m : Int) : Int := if m ≤ 0 then d else d - goRem d m

/-- One minute in nanoseconds (time.Minute). -/
def minuteNs : Int := 60 * 1000000000

/-- The configuration field pkg/config's New post-processes after decoding
the YAML file (a time.Duration in nanoseconds). -/
structure FileConfig where
  ForceBasebackupAfterInactivityInterval : Int
deriving DecidableEq, Repr

/-- config.New after YAML decoding: truncate the inactivity interval to
whole minutes. -/
def configNew (c : FileConfig) : FileConfig :=
  { c with ForceBasebackupAfterInactivityInterval :=
      durationTruncate c.ForceBasebackupAfterInactivityInterval minuteNs }

/-- The stream of records written so far to the given table's writer
(empty when the table is not registered). -/
def streamOf (s : EngineState) (oid : OID) : List Rec :=
  ((getAssoc oid s.backupTables).map TableState.stream).getD []

/-- One engine step: run the handler on a (message, wal_start) frame and
keep the state. -/
def stepState (cfg : Config) (s : EngineState) (p : Msg × LSN) : EngineState :=
  (handler cfg s p.1 p.2).1

/-- Run the handler over a list of (message, wal_start) frames. -/
def runMsgs (cfg : Config) (s : EngineState) (l : List (Msg × LSN)) : EngineState :=
  l.foldl (stepState cfg) s

/-- Transaction-boundary messages (Begin and Commit). -/
def isTxBoundary : Msg → Bool
  | Msg.Begin _ _ _ => true
  | Msg.Commit _ _ _ => true
  | _ => false

/-- DML record kinds. -/
def isDMLCmd : CmdType → Bool
  | CmdType.cInsert => true
  | CmdType.cUpdate => true
  | CmdType.cDelete => true
  | _ => false

/-- Per-table view of one transaction: whether the target table is in the
registry, its pending relation bytes, whether its begin record has been
written this transaction, and the records appended to its stream during
the transaction body. -/
structure TxView where
  registered : Bool
  pendingRel : Option Raw
  begun : Bool
  recs : List Rec
deriving DecidableEq, Repr

/-- The records a single DML write appends to the target table: the lazily
written begin record (first DML only), the pending relation record if any,
then the DML record, all tagged with the transaction commit LSN and the
frame's wal_start. -/
def dmlChunk (braw : Raw) (tcl : LSN) (v : TxView) (cmd : CmdType) (raw : Raw)
    (w : LSN) : List Rec :=
  (if v.begun then [] else [⟨CmdType.cBegin, braw, tcl, w⟩]) ++
  (match v.pendingRel with
   | some r => [⟨CmdType.cRelation, r, tcl, w⟩]
   | none => []) ++
  [⟨cmd, raw, tcl, w⟩]

/-- Per-table view of one DML message. -/
def txViewDML (oid : OID) (braw : Raw) (tcl : LSN) (v : TxView) (o : OID)
    (cmd : CmdType) (raw : Raw) (w : LSN) : TxView :=
  if o = oid ∧ v.registered = true then
    { registered := true, pendingRel := none, begun := true,
      recs := v.recs ++ dmlChunk braw tcl v cmd raw w }
  else v

/-- Per-table view of one transaction-body message for the target table. -/
def txViewStep (cfg : Config) (oid : OID) (braw : Raw) (tcl : LSN) (v : TxView) :
    Msg × LSN → TxView
  | (Msg.Relation o _ raw, _) =>
      if o = oid then
        if v.registered then { v with pendingRel := some raw }
        else if cfg.trackNewTables then { v with registered := true, pendingRel := some raw }
        else v
      else v
  | (Msg.Insert o raw, w) => txViewDML oid braw tcl v o CmdType.cInsert raw w
  | (Msg.Update o raw, w) => txViewDML oid braw tcl v o CmdType.cUpdate raw w
  | (Msg.Delete o raw, w) => txViewDML oid braw tcl v o CmdType.cDelete raw w
  | _ => v

/-- The per-table view at the start of a transaction body, read off the
engine state at the transaction's Begin. -/
def initialTxView (s0 : EngineState) (oid : OID) : TxView :=
  { registered := (getAssoc oid s0.backupTables).isSome,
    pendingRel := getAssoc oid s0.relationMessages,
    begun := false, recs := [] }

/-- Fold the per-table view over a transaction body. -/
def runTxView (cfg : Config) (oid : OID) (braw : Raw) (tcl : LSN) (v : TxView)
    (l : List (Msg × LSN)) : TxView :=
  l.foldl (txViewStep cfg oid braw tcl) v

/-- The correspondence invariant between the engine state during a
transaction body and the per-table view of the target table. -/
def TxInv (s0 : EngineState) (oid : OID) (braw : Raw) (tcl : LSN)
    (s : EngineState) (v : TxView) : Prop :=
  (getAssoc oid s.backupTables).isSome = v.registered ∧
  getAssoc oid s.relationMessages = v.pendingRel ∧
  s.txBeginRelMsg.contains oid = v.begun ∧
  streamOf s oid = streamOf s0 oid ++ v.recs ∧
  s.typeMsg = none ∧
  s.beginMsg = braw ∧
  s.transactionCommitLSN = tcl ∧
  (v.registered = false → streamOf s0 oid = [] ∧ v.recs = []) ∧
  s.txBeginRelMsg.Nodup ∧
  (v.begun = true → v.registered = true)

/-- The participation invariant: every table recorded as participating in
the current transaction has a writer in the registry. -/
def ParticipationInv (s : EngineState) : Prop :=
  ∀ oid : OID, s.txBeginRelMsg.contains oid = true →
    (getAssoc oid s.backupTables).isSome = true

/-- No two adjacent history entries carry the same name. -/
def adjacentNamesDiffer : List NameAtLSN → Bool
  | [] => true
  | [_] => true
  | a :: b :: t => (a.Name != b.Name) && adjacentNamesDiffer (b :: t)

/-- Adjacent history entries carry strictly increasing LSNs. -/
def lsnStrictlyIncreasing : List NameAtLSN → Bool
  | [] => true
  | [_] => true
  | a :: b :: t => (decide (a.Lsn < b.Lsn)) && lsnStrictlyIncreasing (b :: t)

/-- Adjacent history entries carry non-decreasing LSNs. -/
def lsnNonDecreasing : List NameAtLSN → Bool
  | [] => true
  | [_] => true
  | a :: b :: t => (decide (a.Lsn ≤ b.Lsn)) && lsnNonDecreasing (b :: t)

/-- Whether an operation is a rename. -/
def isRenameOp : FsOp → Bool
  | FsOp.renameFile _ _ _ => true
  | _ => false

/-- Whether an operation touches the given directory. -/
def opInDir (d : String) : FsOp → Bool
  | FsOp.openTruncWrite dir _ => dir == d
  | FsOp.syncFileAndDir dir _ => dir == d
  | FsOp.renameFile dir _ _ => dir == d
  | FsOp.sendStandbyStatus _ => false

/-- Whether an operation touches the given file name. -/
def opOnFile (f : String) : FsOp → Bool
  | FsOp.openTruncWrite _ g => g == f
  | FsOp.syncFileAndDir _ g => g == f
  | FsOp.renameFile _ g h => g == f || h == f
  | FsOp.sendStandbyStatus _ => false

/-- Example configuration: staging and archive directories both set, new
tables tracked, rotation every 100 records. -/
def cfgEx : Config :=
  { stagingDir := "staging", archiveDir := "archive", trackNewTables := true,
    deltasPerFile := 100 }

/-- Example table names. -/
def nameT : NamespacedName := { Namespace := "public", Name := "t" }

/-- Second example table name (a rename target). -/
def nameU : NamespacedName := { Namespace := "public", Name := "u" }

/-- An engine state with one registered table (OID 1). -/
def sRegistered : EngineState :=
  { initialEngineState with backupTables := [(1, newTableState nameT)] }

/-- A transaction that receives a Type message before its only DML. -/
def c1Frames : List (Msg × LSN) :=
  [(Msg.Begin 7 100 [1, 2], 90),
   (Msg.TypeMessage [9], 91),
   (Msg.Insert 1 [3], 92),
   (Msg.Commit 100 [4] 0, 100)]

/-- The engine state after running that transaction. -/
def c1Final : EngineState := runMsgs cfgEx sRegistered c1Frames

/-- The body used by the transaction-envelope witness. -/
def c1Body : List (Msg × LSN) :=
  [(Msg.Relation 1 nameU [5], 101), (Msg.Insert 1 [3], 102)]

/-- A writer with unflushed data at LSN 5. -/
def c6Writer : TableState :=
  { newTableState nameT with flushedLSN := 5, flushRequired := true }

/-- A state about to commit a zero-DML transaction at LSN 10 while another
registry writer still has unflushed data at LSN 5. -/
def c6State : EngineState :=
  { initialEngineState with
    backupTables := [(1, c6Writer)],
    transactionCommitLSN := 10, latestFlushLSN := 3 }

/-- The state after handling that commit. -/
def c6Final : EngineState := (handler cfgEx c6State (Msg.Commit 10 [4] 0) 11).1

/-- A zero-DML commit state with no writer needing a flush. -/
def c6CleanState : EngineState :=
  { initialEngineState with
    backupTables := [(1, newTableState nameT)],
    transactionCommitLSN := 7, latestFlushLSN := 2 }

/-- A state whose OID-name history is dirty. -/
def c7State : EngineState := { initialEngineState with isChanged := true }

/-- A state whose OID 1 already has a history entry at LSN 100, with the
current transaction committing at the same LSN. -/
def c8State : EngineState :=
  { initialEngineState with
    nameChangeHistory := [(1, [⟨nameT, 100⟩])],
    transactionCommitLSN := 100,
    backupTables := [(1, newTableState nameT)] }

/-- The state after registering a rename of OID 1 in that state. -/
def c8Final : EngineState := maybeRegisterNewName c8State 1 nameU

@[simp]
theorem getAssoc_setAssoc_self {α : Type} (k : OID) (v : α) (l : List (OID × α)) :
    getAssoc k (setAssoc k v l) = some v := by
  induction l with
  | nil => simp [getAssoc, setAssoc]
  | cons p t ih =>
    by_cases h : p.1 = k
    · simp [setAssoc, h, getAssoc]
    · simp [setAssoc, h, getAssoc, ih]

theorem getAssoc_setAssoc_ne {α : Type} (j k : OID) (v : α) (l : List (OID × α))
    (h : j ≠ k) : getAssoc j (setAssoc k v l) = getAssoc j l := by
  induction l with
  | nil => simp [getAssoc, setAssoc, Ne.symm h]
  | cons p t ih =>
    by_cases hp : p.1 = k
    · simp [setAssoc, hp, getAssoc, Ne.symm h]
    · simp [setAssoc, hp, getAssoc, ih]

@[simp]
theorem getAssoc_updateAssoc_self {α : Type} (k : OID) (f : α → α) (l : List (OID × α)) :
    getAssoc k (updateAssoc k f l) = (getAssoc k l).map f := by
  induction l with
  | nil => simp [getAssoc, updateAssoc]
  | cons p t ih =>
    by_cases h : p.1 = k
    · simp [updateAssoc, h, getAssoc]
    · simp [updateAssoc, h, getAssoc, ih]

theorem getAssoc_updateAssoc_ne {α : Type} (j k : OID) (f : α → α) (l : List (OID × α))
    (h : j ≠ k) : getAssoc j (updateAssoc k f l) = getAssoc j l := by
  induction l with
  | nil => simp [getAssoc, updateAssoc]
  | cons p t ih =>
    by_cases hp : p.1 = k
    · subst hp
      simp [updateAssoc, getAssoc, Ne.symm h]
    · simp [updateAssoc, hp, getAssoc, ih]

@[simp]
theorem getAssoc_eraseAssoc_self {α : Type} (k : OID) (l : List (OID × α)) :
    getAssoc k (eraseAssoc k l) = none := by
  induction l with
  | nil => simp [getAssoc, eraseAssoc]
  | cons p t ih =>
    by_cases h : p.1 = k
    · simp [eraseAssoc, h, ih]
    · simp [eraseAssoc, h, getAssoc, ih]

theorem getAssoc_eraseAssoc_ne {α : Type} (j k : OID) (l : List (OID × α))
    (h : j ≠ k) : getAssoc j (eraseAssoc k l) = getAssoc j l := by
  induction l with
  | nil => simp [getAssoc, eraseAssoc]
  | cons p t ih =>
    by_cases hp : p.1 = k
    · subst hp
      simp [eraseAssoc, getAssoc, Ne.symm h, ih]
    · simp [eraseAssoc, hp, getAssoc, ih]

theorem WriteDelta_stream (cfg : Config) (t : TableState) (r : Rec) :
    (WriteDelta cfg t r).stream = t.stream ++ [r] := by
  unfold WriteDelta
  dsimp only
  split <;> rfl

@[simp]
theorem WCD_relationMessages (cfg : Config) (s : EngineState) (oid : OID)
    (c : CmdType) (m : Raw) :
    (WriteCommandDataForTable cfg s oid c m).relationMessages = s.relationMessages := rfl

@[simp]
theorem WCD_txBeginRelMsg (cfg : Config) (s : EngineState) (oid : OID)
    (c : CmdType) (m : Raw) :
    (WriteCommandDataForTable cfg s oid c m).txBeginRelMsg = s.txBeginRelMsg := rfl

@[simp]
theorem WCD_typeMsg (cfg : Config) (s : EngineState) (oid : OID)
    (c : CmdType) (m : Raw) :
    (WriteCommandDataForTable cfg s oid c m).typeMsg = s.typeMsg := rfl

@[simp]
theorem WCD_beginMsg (cfg : Config) (s : EngineState) (oid : OID)
    (c : CmdType) (m : Raw) :
    (WriteCommandDataForTable cfg s oid c m).beginMsg = s.beginMsg := rfl

@[simp]
theorem WCD_tcl (cfg : Config) (s : EngineState) (oid : OID)
    (c : CmdType) (m : Raw) :
    (WriteCommandDataForTable cfg s oid c m).transactionCommitLSN = s.transactionCommitLSN := rfl

@[simp]
theorem WCD_currentLSN (cfg : Config) (s : EngineState) (oid : OID)
    (c : CmdType) (m : Raw) :
    (WriteCommandDataForTable cfg s oid c m).currentLSN = s.currentLSN := rfl

@[simp]
theorem WCD_latest (cfg : Config) (s : EngineState) (oid : OID)
    (c : CmdType) (m : Raw) :
    (WriteCommandDataForTable cfg s oid c m).latestFlushLSN = s.latestFlushLSN := rfl

@[simp]
theorem WCD_isChanged (cfg : Config) (s : EngineState) (oid : OID)
    (c : CmdType) (m : Raw) :
    (WriteCommandDataForTable cfg s oid c m).isChanged = s.isChanged := rfl

@[simp]
theorem WCD_history (cfg : Config) (s : EngineState) (oid : OID)
    (c : CmdType) (m : Raw) :
    (WriteCommandDataForTable cfg s oid c m).nameChangeHistory = s.nameChangeHistory := rfl

theorem WCD_getAssoc_isSome (cfg : Config) (s : EngineState) (oid : OID)
    (c : CmdType) (m : Raw) (j : OID) :
    (getAssoc j (WriteCommandDataForTable cfg s oid c m).backupTables).isSome
      = (getAssoc j s.backupTables).isSome := by
  simp only [WriteCommandDataForTable]
  by_cases hj : j = oid
  · subst hj
    simp only [getAssoc_updateAssoc_self]
    cases getAssoc j s.backupTables <;> rfl
  · rw [getAssoc_updateAssoc_ne _ _ _ _ hj]

theorem streamOf_WCD_self (cfg : Config) (s : EngineState) (oid : OID)
    (c : CmdType) (m : Raw)
    (h : (getAssoc oid s.backupTables).isSome = true) :
    streamOf (WriteCommandDataForTable cfg s oid c m) oid
      = streamOf s oid ++ [⟨c, m, s.transactionCommitLSN, s.currentLSN⟩] := by
  simp only [WriteCommandDataForTable, streamOf]
  cases hx : getAssoc oid s.backupTables with
  | none => rw [hx] at h; simp at h
  | some t => simp [hx, WriteDelta_stream]

theorem streamOf_WCD_ne (cfg : Config) (s : EngineState) (oid : OID)
    (c : CmdType) (m : Raw) (j : OID) (h : j ≠ oid) :
    streamOf (WriteCommandDataForTable cfg s oid c m) j = streamOf s j := by
  simp only [WriteCommandDataForTable, streamOf]
  rw [getAssoc_updateAssoc_ne _ _ _ _ h]

theorem streamOf_WCD_absent (cfg : Config) (s : EngineState) (oid : OID)
    (c : CmdType) (m : Raw)
    (h : getAssoc oid s.backupTables = none) :
    streamOf (WriteCommandDataForTable cfg s oid c m) oid = streamOf s oid := by
  simp only [WriteCommandDataForTable, streamOf]
  simp [h]

@[simp]
theorem mRNN_relationMessages (s : EngineState) (k : OID) (n : NamespacedName) :
    (maybeRegisterNewName s k n).relationMessages = s.relationMessages := by
  unfold maybeRegisterNewName
  dsimp only
  split <;> rfl

@[simp]
theorem mRNN_txBeginRelMsg (s : EngineState) (k : OID) (n : NamespacedName) :
    (maybeRegisterNewName s k n).txBeginRelMsg = s.txBeginRelMsg := by
  unfold maybeRegisterNewName
  dsimp only
  split <;> rfl

@[simp]
theorem mRNN_typeMsg (s : EngineState) (k : OID) (n : NamespacedName) :
    (maybeRegisterNewName s k n).typeMsg = s.typeMsg := by
  unfold maybeRegisterNewName
  dsimp only
  split <;> rfl

@[simp]
theorem mRNN_beginMsg (s : EngineState) (k : OID) (n : NamespacedName) :
    (maybeRegisterNewName s k n).beginMsg = s.beginMsg := by
  unfold maybeRegisterNewName
  dsimp only
  split <;> rfl

@[simp]
theorem mRNN_tcl (s : EngineState) (k : OID) (n : NamespacedName) :
    (maybeRegisterNewName s k n).transactionCommitLSN = s.transactionCommitLSN := by
  unfold maybeRegisterNewName
  dsimp only
  split <;> rfl

@[simp]
theorem mRNN_currentLSN (s : EngineState) (k : OID) (n : NamespacedName) :
    (maybeRegisterNewName s k n).currentLSN = s.currentLSN := by
  unfold maybeRegisterNewName
  dsimp only
  split <;> rfl

@[simp]
theorem mRNN_latest (s : EngineState) (k : OID) (n : NamespacedName) :
    (maybeRegisterNewName s k n).latestFlushLSN = s.latestFlushLSN := by
  unfold maybeRegisterNewName
  dsimp only
  split <;> rfl

theorem mRNN_getAssoc_isSome (s : EngineState) (k : OID) (n : NamespacedName) (j : OID) :
    (getAssoc j (maybeRegisterNewName s k n).backupTables).isSome
      = (getAssoc j s.backupTables).isSome := by
  unfold maybeRegisterNewName
  dsimp only
  split
  · by_cases hj : j = k
    · subst hj
      simp only [getAssoc_updateAssoc_self]
      cases getAssoc j s.backupTables <;> rfl
    · rw [getAssoc_updateAssoc_ne _ _ _ _ hj]
  · rfl

theorem mRNN_streamOf (s : EngineState) (k : OID) (n : NamespacedName) (j : OID) :
    streamOf (maybeRegisterNewName s k n) j = streamOf s j := by
  unfold maybeRegisterNewName streamOf
  dsimp only
  split
  · by_cases hj : j = k
    · subst hj
      simp only [getAssoc_updateAssoc_self]
      cases getAssoc j s.backupTables <;> rfl
    · rw [getAssoc_updateAssoc_ne _ _ _ _ hj]
  · rfl

theorem commitStep_latest (cfg : Config) (raw : Raw) (s : EngineState) (o : OID) :
    (commitStep cfg raw s o).latestFlushLSN = s.latestFlushLSN := by
  unfold commitStep
  cases getAssoc o s.backupTables <;> rfl

theorem commitStep_tcl (cfg : Config) (raw : Raw) (s : EngineState) (o : OID) :
    (commitStep cfg raw s o).transactionCommitLSN = s.transactionCommitLSN := by
  unfold commitStep
  cases getAssoc o s.backupTables <;> rfl

theorem commitStep_currentLSN (cfg : Config) (raw : Raw) (s : EngineState) (o : OID) :
    (commitStep cfg raw s o).currentLSN = s.currentLSN := by
  unfold commitStep
  cases getAssoc o s.backupTables <;> rfl

theorem commitStep_txBeginRelMsg (cfg : Config) (raw : Raw) (s : EngineState) (o : OID) :
    (commitStep cfg raw s o).txBeginRelMsg = s.txBeginRelMsg := by
  unfold commitStep
  cases getAssoc o s.backupTables <;> rfl

theorem commitStep_isChanged (cfg : Config) (raw : Raw) (s : EngineState) (o : OID) :
    (commitStep cfg raw s o).isChanged = s.isChanged := by
  unfold commitStep
  cases getAssoc o s.backupTables <;> rfl

theorem commitStep_typeMsg (cfg : Config) (raw : Raw) (s : EngineState) (o : OID) :
    (commitStep cfg raw s o).typeMsg = s.typeMsg := by
  unfold commitStep
  cases getAssoc o s.backupTables <;> rfl

theorem commitStep_isSome (cfg : Config) (raw : Raw) (s : EngineState) (o j : OID) :
    (getAssoc j (commitStep cfg raw s o).backupTables).isSome
      = (getAssoc j s.backupTables).isSome := by
  unfold commitStep
  cases getAssoc o s.backupTables with
  | none => rfl
  | some t => exact WCD_getAssoc_isSome cfg s o CmdType.cCommit raw j

theorem commitStep_streamOf_ne (cfg : Config) (raw : Raw) (s : EngineState) (o j : OID)
    (h : j ≠ o) :
    streamOf (commitStep cfg raw s o) j = streamOf s j := by
  unfold commitStep
  cases getAssoc o s.backupTables with
  | none => rfl
  | some t => exact streamOf_WCD_ne cfg s o CmdType.cCommit raw j h

theorem commitFold_latest (cfg : Config) (raw : Raw) :
    ∀ (l : List OID) (s : EngineState),
      (l.foldl (commitStep cfg raw) s).latestFlushLSN = s.latestFlushLSN := by
  intro l
  induction l with
  | nil => intro s; rfl
  | cons o t ih =>
    intro s
    rw [List.foldl_cons, ih, commitStep_latest]

theorem commitFold_tcl (cfg : Config) (raw : Raw) :
    ∀ (l : List OID) (s : EngineState),
      (l.foldl (commitStep cfg raw) s).transactionCommitLSN = s.transactionCommitLSN := by
  intro l
  induction l with
  | nil => intro s; rfl
  | cons o t ih =>
    intro s
    rw [List.foldl_cons, ih, commitStep_tcl]

theorem commitFold_currentLSN (cfg : Config) (raw : Raw) :
    ∀ (l : List OID) (s : EngineState),
      (l.foldl (commitStep cfg raw) s).currentLSN = s.currentLSN := by
  intro l
  induction l with
  | nil => intro s; rfl
  | cons o t ih =>
    intro s
    rw [List.foldl_cons, ih, commitStep_currentLSN]

theorem commitFold_txBeginRelMsg (cfg : Config) (raw : Raw) :
    ∀ (l : List OID) (s : EngineState),
      (l.foldl (commitStep cfg raw) s).txBeginRelMsg = s.txBeginRelMsg := by
  intro l
  induction l with
  | nil => intro s; rfl
  | cons o t ih =>
    intro s
    rw [List.foldl_cons, ih, commitStep_txBeginRelMsg]

theorem commitFold_isChanged (cfg : Config) (raw : Raw) :
    ∀ (l : List OID) (s : EngineState),
      (l.foldl (commitStep cfg raw) s).isChanged = s.isChanged := by
  intro l
  induction l with
  | nil => intro s; rfl
  | cons o t ih =>
    intro s
    rw [List.foldl_cons, ih, commitStep_isChanged]

theorem commitFold_typeMsg (cfg : Config) (raw : Raw) :
    ∀ (l : List OID) (s : EngineState),
      (l.foldl (commitStep cfg raw) s).typeMsg = s.typeMsg := by
  intro l
  induction l with
  | nil => intro s; rfl
  | cons o t ih =>
    intro s
    rw [List.foldl_cons, ih, commitStep_typeMsg]

theorem commitFold_isSome (cfg : Config) (raw : Raw) :
    ∀ (l : List OID) (s : EngineState) (j : OID),
      (getAssoc j ((l.foldl (commitStep cfg raw) s)).backupTables).isSome
        = (getAssoc j s.backupTables).isSome := by
  intro l
  induction l with
  | nil => intro s j; rfl
  | cons o t ih =>
    intro s j
    rw [List.foldl_cons, ih, commitStep_isSome]

theorem commitFold_streamOf_not_mem (cfg : Config) (raw : Raw) :
    ∀ (l : List OID) (s : EngineState) (j : OID), j ∉ l →
      streamOf (l.foldl (commitStep cfg raw) s) j = streamOf s j := by
  intro l
  induction l with
  | nil => intro s j _; rfl
  | cons o t ih =>
    intro s j hj
    rw [List.foldl_cons, ih _ _ (fun hm => hj (List.mem_cons_of_mem _ hm)),
      commitStep_streamOf_ne]
    intro he
    exact hj (he ▸ List.mem_cons_self o t)

theorem commitFold_streamOf_mem (cfg : Config) (raw : Raw) :
    ∀ (l : List OID) (s : EngineState) (j : OID), l.Nodup → j ∈ l →
      (getAssoc j s.backupTables).isSome = true →
      streamOf (l.foldl (commitStep cfg raw) s) j
        = streamOf s j ++ [⟨CmdType.cCommit, raw, s.transactionCommitLSN, s.currentLSN⟩] := by
  intro l
  induction l with
  | nil => intro s j _ hj; exact absurd hj (List.not_mem_nil j)
  | cons o t ih =>
    intro s j hnd hj hsome
    rw [List.foldl_cons]
    rcases List.mem_cons.mp hj with he | hm
    · subst he
      have hnotin : j ∉ t := (List.nodup_cons.mp hnd).1
      rw [commitFold_streamOf_not_mem cfg raw t _ j hnotin]
      unfold commitStep
      cases hx : getAssoc j s.backupTables with
      | none => rw [hx] at hsome; simp at hsome
      | some w => exact streamOf_WCD_self cfg s j CmdType.cCommit raw hsome
    · have hne : j ≠ o := by
        intro he
        subst he
        exact (List.nodup_cons.mp hnd).1 hm
      have hs2 : (getAssoc j (commitStep cfg raw s o).backupTables).isSome = true := by
        rw [commitStep_isSome]; exact hsome
      rw [ih _ _ (List.nodup_cons.mp hnd).2 hm hs2, commitStep_streamOf_ne cfg raw s o j hne,
        commitStep_tcl, commitStep_currentLSN]

@[simp]
theorem flushOid_backupTables (cfg : Config) (s : EngineState) :
    (flushOidNameMapOps cfg s).1.backupTables = s.backupTables := by
  unfold flushOidNameMapOps
  split <;> rfl

@[simp]
theorem flushOid_latest (cfg : Config) (s : EngineState) :
    (flushOidNameMapOps cfg s).1.latestFlushLSN = s.latestFlushLSN := by
  unfold flushOidNameMapOps
  split <;> rfl

@[simp]
theorem flushOid_tcl (cfg : Config) (s : EngineState) :
    (flushOidNameMapOps cfg s).1.transactionCommitLSN = s.transactionCommitLSN := by
  unfold flushOidNameMapOps
  split <;> rfl

@[simp]
theorem flushOid_txBeginRelMsg (cfg : Config) (s : EngineState) :
    (flushOidNameMapOps cfg s).1.txBeginRelMsg = s.txBeginRelMsg := by
  unfold flushOidNameMapOps
  split <;> rfl

@[simp]
theorem flushOid_typeMsg (cfg : Config) (s : EngineState) :
    (flushOidNameMapOps cfg s).1.typeMsg = s.typeMsg := by
  unfold flushOidNameMapOps
  split <;> rfl

theorem flushOid_getNext (cfg : Config) (s : EngineState) :
    getNextFlushLSN (flushOidNameMapOps cfg s).1 = getNextFlushLSN s := by
  unfold getNextFlushLSN
  rw [flushOid_backupTables, flushOid_tcl]

@[simp]
theorem flushAdvance_backupTables (cfg : Config) (s : EngineState) :
    (flushAdvance cfg s).1.backupTables = s.backupTables := by
  unfold flushAdvance
  dsimp only
  split <;> rfl

@[simp]
theorem flushAdvance_txBeginRelMsg (cfg : Config) (s : EngineState) :
    (flushAdvance cfg s).1.txBeginRelMsg = s.txBeginRelMsg := by
  unfold flushAdvance
  dsimp only
  split <;> rfl

@[simp]
theorem flushAdvance_typeMsg (cfg : Config) (s : EngineState) :
    (flushAdvance cfg s).1.typeMsg = s.typeMsg := by
  unfold flushAdvance
  dsimp only
  split <;> rfl

@[simp]
theorem flushAdvance_tcl (cfg : Config) (s : EngineState) :
    (flushAdvance cfg s).1.transactionCommitLSN = s.transactionCommitLSN := by
  unfold flushAdvance
  dsimp only
  split <;> rfl

theorem flushAdvance_latest (cfg : Config) (s : EngineState) :
    (flushAdvance cfg s).1.latestFlushLSN = max s.latestFlushLSN (getNextFlushLSN s) := by
  unfold flushAdvance
  dsimp only
  split
  · next h => simp [Nat.max_eq_right (Nat.le_of_lt h)]
  · next h => simp [Nat.max_eq_left (Nat.le_of_not_lt h)]

theorem flushAdvance_ops (cfg : Config) (s : EngineState) :
    (flushAdvance cfg s).2
      = if s.latestFlushLSN < getNextFlushLSN s then
          writeRestartLSNOps cfg ++ [FsOp.sendStandbyStatus (getNextFlushLSN s)]
        else [] := by
  unfold flushAdvance
  dsimp only
  split <;> rfl

theorem flushOid_ops (cfg : Config) (s : EngineState) :
    (flushOidNameMapOps cfg s).2
      = if s.isChanged then
          [FsOp.openTruncWrite (baseDir cfg) oidNameMapFile,
           FsOp.syncFileAndDir (baseDir cfg) oidNameMapFile]
        else [] := by
  unfold flushOidNameMapOps
  cases hc : s.isChanged <;> simp [hc]

theorem CWR_latest (cfg : Config) (s : EngineState) (raw : Raw) :
    (commitWriteRecords cfg s raw).latestFlushLSN = s.latestFlushLSN :=
  commitFold_latest cfg raw s.txBeginRelMsg s

theorem CWR_tcl (cfg : Config) (s : EngineState) (raw : Raw) :
    (commitWriteRecords cfg s raw).transactionCommitLSN = s.transactionCommitLSN :=
  commitFold_tcl cfg raw s.txBeginRelMsg s

theorem CWR_currentLSN (cfg : Config) (s : EngineState) (raw : Raw) :
    (commitWriteRecords cfg s raw).currentLSN = s.currentLSN :=
  commitFold_currentLSN cfg raw s.txBeginRelMsg s

theorem CWR_txBeginRelMsg (cfg : Config) (s : EngineState) (raw : Raw) :
    (commitWriteRecords cfg s raw).txBeginRelMsg = s.txBeginRelMsg :=
  commitFold_txBeginRelMsg cfg raw s.txBeginRelMsg s

theorem CWR_isChanged (cfg : Config) (s : EngineState) (raw : Raw) :
    (commitWriteRecords cfg s raw).isChanged = s.isChanged :=
  commitFold_isChanged cfg raw s.txBeginRelMsg s

theorem CWR_typeMsg (cfg : Config) (s : EngineState) (raw : Raw) :
    (commitWriteRecords cfg s raw).typeMsg = s.typeMsg :=
  commitFold_typeMsg cfg raw s.txBeginRelMsg s

theorem CWR_isSome (cfg : Config) (s : EngineState) (raw : Raw) (j : OID) :
    (getAssoc j (commitWriteRecords cfg s raw).backupTables).isSome
      = (getAssoc j s.backupTables).isSome :=
  commitFold_isSome cfg raw s.txBeginRelMsg s j

theorem getNextFold_min (l : List (OID × TableState)) :
    ∀ init : Nat,
      l.foldl
        (fun result p =>
          let fl := GetFlushLSN p.2
          if fl.2 ∧ fl.1 < result then fl.1 else result) init
      = List.foldl min init
          ((l.filter (fun p => p.2.flushRequired)).map (fun p => p.2.flushedLSN)) := by
  induction l with
  | nil => intro init; rfl
  | cons p t ih =>
    intro init
    rw [List.foldl_cons]
    cases hr : p.2.flushRequired with
    | false =>
      rw [List.filter_cons_of_neg (by simp [hr])]
      have hstep :
          (let fl := GetFlushLSN p.2
           if fl.2 ∧ fl.1 < init then fl.1 else init) = init := by
        simp [GetFlushLSN, hr]
      rw [hstep, ih]
    | true =>
      rw [List.filter_cons_of_pos (by simp [hr]), List.map_cons, List.foldl_cons]
      have hstep :
          (let fl := GetFlushLSN p.2
           if fl.2 ∧ fl.1 < init then fl.1 else init) = min init p.2.flushedLSN := by
        simp only [GetFlushLSN, hr]
        rcases Nat.lt_or_ge p.2.flushedLSN init with hlt | hge
        · simp [hlt, Nat.min_eq_right (Nat.le_of_lt hlt)]
        · simp [Nat.not_lt.mpr hge, Nat.min_eq_left hge]
      rw [hstep, ih]

theorem getNextFlushLSN_min (s : EngineState) :
    getNextFlushLSN s
      = List.foldl min s.transactionCommitLSN
          ((s.backupTables.filter (fun p => p.2.flushRequired)).map
            (fun p => p.2.flushedLSN)) :=
  getNextFold_min s.backupTables s.transactionCommitLSN

theorem getNextFlushLSN_all_clean (s : EngineState)
    (h : ∀ p ∈ s.backupTables, p.2.flushRequired = false) :
    getNextFlushLSN s = s.transactionCommitLSN := by
  rw [getNextFlushLSN_min]
  have hf : s.backupTables.filter (fun p => p.2.flushRequired) = [] := by
    rw [List.filter_eq_nil_iff]
    intro a ha
    simp [h a ha]
  rw [hf]
  rfl

theorem handleCommit_latest (cfg : Config) (s : EngineState) (lsn : LSN) (raw : Raw) :
    (handleCommit cfg s lsn raw).1.latestFlushLSN
      = max s.latestFlushLSN
          (getNextFlushLSN (commitWriteRecords cfg { s with currentLSN := lsn } raw)) := by
  unfold handleCommit
  dsimp only
  rw [flushAdvance_latest, flushOid_getNext, flushOid_latest, CWR_latest]

theorem handleCommit_ops (cfg : Config) (s : EngineState) (lsn : LSN) (raw : Raw) :
    (handleCommit cfg s lsn raw).2
      = (if s.isChanged then
          [FsOp.openTruncWrite (baseDir cfg) oidNameMapFile,
           FsOp.syncFileAndDir (baseDir cfg) oidNameMapFile]
        else []) ++
        (if s.latestFlushLSN
            < getNextFlushLSN (commitWriteRecords cfg { s with currentLSN := lsn } raw) then
          writeRestartLSNOps cfg ++
            [FsOp.sendStandbyStatus
              (getNextFlushLSN (commitWriteRecords cfg { s with currentLSN := lsn } raw))]
        else []) := by
  unfold handleCommit
  dsimp only
  rw [flushAdvance_ops, flushOid_getNext, flushOid_latest, CWR_latest, flushOid_ops,
    CWR_isChanged]

theorem containsIffMem (l : List OID) (a : OID) : l.contains a = true ↔ a ∈ l :=
  List.elem_iff

theorem pdm_latest (cfg : Config) (s : EngineState) (oid : OID) (cmd : CmdType) (msg : Raw) :
    (processDMLMessage cfg s oid cmd msg).latestFlushLSN = s.latestFlushLSN := by
  unfold processDMLMessage
  cases h : getAssoc oid s.backupTables with
  | none => rfl
  | some t =>
    dsimp only
    repeat' split
    all_goals simp

theorem pdm_typeMsg_none (cfg : Config) (s : EngineState) (oid : OID) (cmd : CmdType)
    (msg : Raw) (h : s.typeMsg = none) :
    (processDMLMessage cfg s oid cmd msg).typeMsg = none := by
  unfold processDMLMessage
  cases hg : getAssoc oid s.backupTables with
  | none => exact h
  | some t =>
    dsimp only
    repeat' split
    all_goals simp_all

theorem pdm_isSome (cfg : Config) (s : EngineState) (oid : OID) (cmd : CmdType)
    (msg : Raw) (j : OID) :
    (getAssoc j (processDMLMessage cfg s oid cmd msg).backupTables).isSome
      = (getAssoc j s.backupTables).isSome := by
  unfold processDMLMessage
  cases hg : getAssoc oid s.backupTables with
  | none => rfl
  | some t =>
    dsimp only
    repeat' split
    all_goals simp only [WCD_getAssoc_isSome]

theorem prm_latest (cfg : Config) (s : EngineState) (oid : OID) (name : NamespacedName)
    (raw : Raw) :
    (processRelationMessage cfg s oid name raw).latestFlushLSN = s.latestFlushLSN := by
  unfold processRelationMessage registerNewTable stashRelation
  split
  · simp
  · by_cases ht : cfg.trackNewTables <;> simp [ht]

theorem prm_txBeginRelMsg (cfg : Config) (s : EngineState) (oid : OID)
    (name : NamespacedName) (raw : Raw) :
    (processRelationMessage cfg s oid name raw).txBeginRelMsg = s.txBeginRelMsg := by
  unfold processRelationMessage registerNewTable stashRelation
  split
  · simp
  · by_cases ht : cfg.trackNewTables <;> simp [ht]

theorem prm_typeMsg (cfg : Config) (s : EngineState) (oid : OID)
    (name : NamespacedName) (raw : Raw) :
    (processRelationMessage cfg s oid name raw).typeMsg = s.typeMsg := by
  unfold processRelationMessage registerNewTable stashRelation
  split
  · simp
  · by_cases ht : cfg.trackNewTables <;> simp [ht]

theorem prm_isSome_mono (cfg : Config) (s : EngineState) (oid : OID)
    (name : NamespacedName) (raw : Raw) (j : OID)
    (h : (getAssoc j s.backupTables).isSome = true) :
    (getAssoc j (processRelationMessage cfg s oid name raw).backupTables).isSome = true := by
  unfold processRelationMessage registerNewTable stashRelation
  split
  · rw [mRNN_getAssoc_isSome]; exact h
  · cases ht : cfg.trackNewTables with
    | false =>
      simp only [ht, Bool.not_false, if_pos]
      exact h
    | true =>
      simp only [ht, Bool.not_true]
      have hif : ((false : Bool) = true) = False := by simp
      simp only [hif, if_false]
      rw [mRNN_getAssoc_isSome]
      by_cases hj : j = oid
      · subst hj; simp
      · rw [getAssoc_setAssoc_ne _ _ _ _ hj]; exact h

theorem pdm_txrel (cfg : Config) (s : EngineState) (oid : OID) (cmd : CmdType) (msg : Raw) :
    (processDMLMessage cfg s oid cmd msg).txBeginRelMsg = s.txBeginRelMsg
    ∨ ((processDMLMessage cfg s oid cmd msg).txBeginRelMsg = s.txBeginRelMsg ++ [oid]
       ∧ (getAssoc oid s.backupTables).isSome = true) := by
  unfold processDMLMessage
  cases hg : getAssoc oid s.backupTables with
  | none => left; rfl
  | some t =>
    dsimp only
    by_cases hc : s.txBeginRelMsg.contains oid = true
    · left
      rw [if_pos hc]
      repeat' split
      all_goals simp
    · right
      refine ⟨?_, rfl⟩
      rw [if_neg hc]
      repeat' split
      all_goals simp

theorem handleCommit_txrel (cfg : Config) (s : EngineState) (lsn : LSN) (raw : Raw) :
    (handleCommit cfg s lsn raw).1.txBeginRelMsg = s.txBeginRelMsg := by
  unfold handleCommit
  dsimp only
  rw [flushAdvance_txBeginRelMsg, flushOid_txBeginRelMsg, CWR_txBeginRelMsg]

theorem handleCommit_isSome (cfg : Config) (s : EngineState) (lsn : LSN) (raw : Raw)
    (j : OID) :
    (getAssoc j (handleCommit cfg s lsn raw).1.backupTables).isSome
      = (getAssoc j s.backupTables).isSome := by
  unfold handleCommit
  dsimp only
  rw [flushAdvance_backupTables, flushOid_backupTables, CWR_isSome]

theorem handleCommit_typeMsg (cfg : Config) (s : EngineState) (lsn : LSN) (raw : Raw) :
    (handleCommit cfg s lsn raw).1.typeMsg = s.typeMsg := by
  unfold handleCommit
  dsimp only
  rw [flushAdvance_typeMsg, flushOid_typeMsg, CWR_typeMsg]

theorem pdm_participation (cfg : Config) (s : EngineState) (oid : OID) (cmd : CmdType)
    (msg : Raw) (h : ParticipationInv s) :
    ParticipationInv (processDMLMessage cfg s oid cmd msg) := by
  intro j hc
  rw [pdm_isSome]
  rcases pdm_txrel cfg s oid cmd msg with heq | ⟨heq, hsome⟩
  · rw [heq] at hc
    exact h j hc
  · rw [heq] at hc
    rcases List.mem_append.mp ((containsIffMem _ _).mp hc) with hmem | hmem
    · exact h j ((containsIffMem _ _).mpr hmem)
    · have hj : j = oid := by simpa using hmem
      subst hj
      exact hsome

theorem prm_participation (cfg : Config) (s : EngineState) (oid : OID)
    (name : NamespacedName) (raw : Raw) (h : ParticipationInv s) :
    ParticipationInv (processRelationMessage cfg s oid name raw) := by
  intro j hc
  rw [prm_txBeginRelMsg] at hc
  exact prm_isSome_mono cfg s oid name raw j (h j hc)

theorem handleCommit_participation (cfg : Config) (s : EngineState) (lsn : LSN)
    (raw : Raw) (h : ParticipationInv s) :
    ParticipationInv (handleCommit cfg s lsn raw).1 := by
  intro j hc
  rw [handleCommit_txrel] at hc
  rw [handleCommit_isSome]
  exact h j hc

theorem writeRestart_all_noRename (cfg : Config) :
    ((writeRestartLSNOps cfg).all (fun op => !isRenameOp op)) = true := by
  unfold writeRestartLSNOps
  by_cases hst : cfg.stagingDir = "" <;> simp [hst, isRenameOp]

theorem writeRestart_all_noOidFile (cfg : Config) :
    ((writeRestartLSNOps cfg).all (fun op => !opOnFile oidNameMapFile op)) = true := by
  have hne : ((stateFileName == oidNameMapFile) : Bool) = false := by decide
  unfold writeRestartLSNOps
  by_cases hst : cfg.stagingDir = "" <;> simp [hst, opOnFile, hne]

theorem writeRestart_archive_mem (cfg : Config) :
    FsOp.openTruncWrite cfg.archiveDir stateFileName ∈ writeRestartLSNOps cfg := by
  unfold writeRestartLSNOps
  exact List.mem_append.mpr (Or.inr (List.mem_cons_self _ _))

theorem flushList_no_statefile (cfg : Config) :
    FsOp.openTruncWrite cfg.archiveDir stateFileName
      ∉ [FsOp.openTruncWrite (baseDir cfg) oidNameMapFile,
         FsOp.syncFileAndDir (baseDir cfg) oidNameMapFile] := by
  intro hmem
  rcases List.mem_cons.mp hmem with he | hmem2
  · injection he with h1 h2
    exact absurd h2 (by decide)
  · rcases List.mem_cons.mp hmem2 with he | hmem3
    · exact FsOp.noConfusion he
    · exact absurd hmem3 (List.not_mem_nil _)

theorem handleCommit_status_iff (cfg : Config) (sx : EngineState) (lsn : LSN) (raw : Raw) :
    (FsOp.sendStandbyStatus
        (getNextFlushLSN (commitWriteRecords cfg { sx with currentLSN := lsn } raw))
      ∈ (handleCommit cfg sx lsn raw).2)
    ↔ sx.latestFlushLSN
        < getNextFlushLSN (commitWriteRecords cfg { sx with currentLSN := lsn } raw) := by
  rw [handleCommit_ops]
  by_cases hc : sx.isChanged = true
  · rw [if_pos hc]
    by_cases hadv : sx.latestFlushLSN
        < getNextFlushLSN (commitWriteRecords cfg { sx with currentLSN := lsn } raw)
    · rw [if_pos hadv]
      refine ⟨fun _ => hadv, fun _ => ?_⟩
      refine List.mem_append.mpr (Or.inr ?_)
      exact List.mem_append.mpr (Or.inr (List.mem_singleton.mpr rfl))
    · rw [if_neg hadv]
      simp only [List.append_nil]
      exact ⟨fun hmem => absurd hmem (by simp), fun hlt => absurd hlt hadv⟩
  · rw [if_neg hc]
    simp only [List.nil_append]
    by_cases hadv : sx.latestFlushLSN
        < getNextFlushLSN (commitWriteRecords cfg { sx with currentLSN := lsn } raw)
    · rw [if_pos hadv]
      refine ⟨fun _ => hadv, fun _ => ?_⟩
      exact List.mem_append.mpr (Or.inr (List.mem_singleton.mpr rfl))
    · rw [if_neg hadv]
      exact ⟨fun hmem => absurd hmem (List.not_mem_nil _), fun hlt => absurd hlt hadv⟩

theorem handleCommit_statefile_iff (cfg : Config) (sx : EngineState) (lsn : LSN) (raw : Raw) :
    (FsOp.openTruncWrite cfg.archiveDir stateFileName ∈ (handleCommit cfg sx lsn raw).2)
    ↔ sx.latestFlushLSN
        < getNextFlushLSN (commitWriteRecords cfg { sx with currentLSN := lsn } raw) := by
  rw [handleCommit_ops]
  by_cases hc : sx.isChanged = true
  · rw [if_pos hc]
    by_cases hadv : sx.latestFlushLSN
        < getNextFlushLSN (commitWriteRecords cfg { sx with currentLSN := lsn } raw)
    · rw [if_pos hadv]
      refine ⟨fun _ => hadv, fun _ => ?_⟩
      refine List.mem_append.mpr (Or.inr ?_)
      exact List.mem_append.mpr (Or.inl (writeRestart_archive_mem cfg))
    · rw [if_neg hadv]
      simp only [List.append_nil]
      exact ⟨fun hmem => absurd hmem (flushList_no_statefile cfg),
        fun hlt => absurd hlt hadv⟩
  · rw [if_neg hc]
    simp only [List.nil_append]
    by_cases hadv : sx.latestFlushLSN
        < getNextFlushLSN (commitWriteRecords cfg { sx with currentLSN := lsn } raw)
    · rw [if_pos hadv]
      refine ⟨fun _ => hadv, fun _ => ?_⟩
      exact List.mem_append.mpr (Or.inl (writeRestart_archive_mem cfg))
    · rw [if_neg hadv]
      exact ⟨fun hmem => absurd hmem (List.not_mem_nil _), fun hlt => absurd hlt hadv⟩

theorem handleCommit_all_noRename (cfg : Config) (sx : EngineState) (lsn : LSN) (raw : Raw) :
    (((handleCommit cfg sx lsn raw).2).all (fun op => !isRenameOp op)) = true := by
  rw [handleCommit_ops, List.all_append]
  refine (Bool.and_eq_true _ _).mpr ⟨?_, ?_⟩
  · split <;> simp [isRenameOp]
  · split
    · rw [List.all_append]
      refine (Bool.and_eq_true _ _).mpr ⟨writeRestart_all_noRename cfg, by simp [isRenameOp]⟩
    · rfl

theorem handleCommit_take2_dirty (cfg : Config) (sx : EngineState) (lsn : LSN) (raw : Raw)
    (hc : sx.isChanged = true) :
    ((handleCommit cfg sx lsn raw).2).take 2
      = [FsOp.openTruncWrite (baseDir cfg) oidNameMapFile,
         FsOp.syncFileAndDir (baseDir cfg) oidNameMapFile] := by
  rw [handleCommit_ops, if_pos hc]
  simp [List.take]

theorem handleCommit_clean_noOid (cfg : Config) (sx : EngineState) (lsn : LSN) (raw : Raw)
    (hc : sx.isChanged = false) :
    (((handleCommit cfg sx lsn raw).2).all (fun op => !opOnFile oidNameMapFile op)) = true := by
  rw [handleCommit_ops, if_neg (by simp [hc]), List.nil_append]
  split
  · rw [List.all_append]
    refine (Bool.and_eq_true _ _).mpr ⟨writeRestart_all_noOidFile cfg, by simp [opOnFile]⟩
  · rfl

/-- C2: on a Commit message, the engine computes the candidate flush LSN as
the minimum of the transaction commit LSN and the flush LSNs of every
registry writer reporting needs_flush (writers not needing a flush are
excluded); latestFlushLSN becomes the candidate exactly when the candidate
is strictly greater, and only then is the state file persisted and a
standby status sent. -/
theorem claim2_commit_flush (cfg : Config) (s : EngineState) (lsn : LSN) (raw : Raw)
    (ts : Int) (w : LSN) :
    (handler cfg s (Msg.Commit lsn raw ts) w).1.latestFlushLSN
        = max s.latestFlushLSN
            (getNextFlushLSN (commitWriteRecords cfg { s with currentLSN := lsn } raw))
    ∧ getNextFlushLSN (commitWriteRecords cfg { s with currentLSN := lsn } raw)
        = List.foldl min s.transactionCommitLSN
            (((commitWriteRecords cfg { s with currentLSN := lsn } raw).backupTables.filter
                (fun p => p.2.flushRequired)).map (fun p => p.2.flushedLSN))
    ∧ ((FsOp.sendStandbyStatus
          (getNextFlushLSN (commitWriteRecords cfg { s with currentLSN := lsn } raw))
        ∈ (handler cfg s (Msg.Commit lsn raw ts) w).2)
        ↔ s.latestFlushLSN
            < getNextFlushLSN (commitWriteRecords cfg { s with currentLSN := lsn } raw))
    ∧ ((FsOp.openTruncWrite cfg.archiveDir stateFileName
        ∈ (handler cfg s (Msg.Commit lsn raw ts) w).2)
        ↔ s.latestFlushLSN
            < getNextFlushLSN (commitWriteRecords cfg { s with currentLSN := lsn } raw)) := by
  have hh : handler cfg s (Msg.Commit lsn raw ts) w
      = handleCommit cfg { s with currentLSN := w } lsn raw := rfl
  have hcc : ({ { s with currentLSN := w } with currentLSN := lsn } : EngineState)
      = { s with currentLSN := lsn } := rfl
  have hlat := handleCommit_latest cfg { s with currentLSN := w } lsn raw
  rw [hcc] at hlat
  have hstat := handleCommit_status_iff cfg { s with currentLSN := w } lsn raw
  rw [hcc] at hstat
  have hfilei := handleCommit_statefile_iff cfg { s with currentLSN := w } lsn raw
  rw [hcc] at hfilei
  refine ⟨?_, ?_, ?_, ?_⟩
  · rw [hh]
    exact hlat
  · rw [getNextFlushLSN_min, CWR_tcl]
  · rw [hh]
    exact hstat
  · rw [hh]
    exact hfilei

/-- C3: the latest flush LSN is monotonic non-decreasing: no handler step
lowers it. -/
theorem claim3_latest_monotone (cfg : Config) (s : EngineState) (m : Msg) (w : LSN) :
    s.latestFlushLSN ≤ ((handler cfg s m w).1).latestFlushLSN := by
  cases m with
  | Relation oid name raw =>
    show s.latestFlushLSN
        ≤ (processRelationMessage cfg { s with currentLSN := w } oid name raw).latestFlushLSN
    rw [prm_latest]
  | Insert oid raw =>
    show s.latestFlushLSN
        ≤ (processDMLMessage cfg { s with currentLSN := w } oid CmdType.cInsert raw).latestFlushLSN
    rw [pdm_latest]
  | Update oid raw =>
    show s.latestFlushLSN
        ≤ (processDMLMessage cfg { s with currentLSN := w } oid CmdType.cUpdate raw).latestFlushLSN
    rw [pdm_latest]
  | Delete oid raw =>
    show s.latestFlushLSN
        ≤ (processDMLMessage cfg { s with currentLSN := w } oid CmdType.cDelete raw).latestFlushLSN
    rw [pdm_latest]
  | Begin xid finalLSN raw => exact Nat.le.refl
  | Commit lsn raw ts =>
    show s.latestFlushLSN ≤ (handleCommit cfg { s with currentLSN := w } lsn raw).1.latestFlushLSN
    rw [handleCommit_latest]
    exact Nat.le_max_left _ _
  | Origin => exact Nat.le.refl
  | Truncate => exact Nat.le.refl
  | TypeMessage raw => exact Nat.le.refl

/-- C5: a WAL frame whose wal_start is valid and at or below the current
latest flush LSN is dropped by the receive loop without touching the
engine state, regardless of its payload; a frame with an invalid (zero)
wal_start is not dropped by this check. -/
theorem claim5_skip_replayed (cfg : Config) (s : EngineState) (w : LSN) (m : Msg) :
    (lsnIsValid w = true → w ≤ s.latestFlushLSN → walFrameStep cfg s w m = (s, []))
    ∧ (lsnIsValid w = false → walFrameStep cfg s w m = handler cfg s m w) := by
  constructor
  · intro hv hle
    unfold walFrameStep
    rw [if_pos ⟨hv, hle⟩]
  · intro hv
    unfold walFrameStep
    rw [if_neg]
    intro hcon
    rw [hv] at hcon
    exact Bool.false_ne_true hcon.1

/-- Witness for C5: at a state with flush LSN 3, the frame at wal_start 2
is dropped for every payload, and a frame with wal_start 0 is dispatched. -/
theorem claim5_skip_replayed_witness :
    walFrameStep cfgEx c6State 2 Msg.Origin = (c6State, [])
    ∧ walFrameStep cfgEx c6State 0 Msg.Origin = handler cfgEx c6State Msg.Origin 0 :=
  ⟨(claim5_skip_replayed cfgEx c6State 2 Msg.Origin).1 (by decide) (by decide),
   (claim5_skip_replayed cfgEx c6State 0 Msg.Origin).2 (by decide)⟩

/-- C6 counterexample: a zero-DML transaction commits at LSN 10, but a
registry writer with unflushed data at LSN 5 caps the advance, so
latestFlushLSN becomes 5, not the transaction commit LSN. -/
theorem claim6_counterexample :
    c6State.txBeginRelMsg = []
    ∧ c6State.transactionCommitLSN = 10
    ∧ c6Final.latestFlushLSN = 5
    ∧ c6Final.latestFlushLSN ≠ c6State.transactionCommitLSN := by
  refine ⟨rfl, rfl, ?_, ?_⟩ <;> decide

/-- C6 amended: a zero-DML commit advances latestFlushLSN all the way to
the transaction commit LSN provided no registry writer reports an
outstanding flush and the commit LSN exceeds the current flush LSN;
otherwise writers in the registry cap the advance as usual. -/
theorem claim6_amended (cfg : Config) (s : EngineState) (lsn : LSN) (craw : Raw)
    (ts : Int) (w : LSN)
    (h0 : s.txBeginRelMsg = [])
    (h1 : ∀ p ∈ s.backupTables, p.2.flushRequired = false)
    (h2 : s.latestFlushLSN < s.transactionCommitLSN) :
    ((handler cfg s (Msg.Commit lsn craw ts) w).1).latestFlushLSN
      = s.transactionCommitLSN := by
  have hh : handler cfg s (Msg.Commit lsn craw ts) w
      = handleCommit cfg { s with currentLSN := w } lsn craw := rfl
  rw [hh, handleCommit_latest]
  have hcwr : commitWriteRecords cfg { { s with currentLSN := w } with currentLSN := lsn } craw
      = ({ s with currentLSN := lsn } : EngineState) := by
    unfold commitWriteRecords
    have hl : ({ { s with currentLSN := w } with currentLSN := lsn } : EngineState).txBeginRelMsg
        = [] := h0
    rw [hl]
    rfl
  have hg : getNextFlushLSN ({ s with currentLSN := lsn } : EngineState)
      = s.transactionCommitLSN :=
    getNextFlushLSN_all_clean ({ s with currentLSN := lsn } : EngineState)
      (fun p hp => h1 p hp)
  rw [hcwr, hg]
  exact Nat.max_eq_right (Nat.le_of_lt h2)

/-- Witness for C6 amended: with one clean writer and commit LSN 7 above
flush LSN 2, the commit advances latestFlushLSN to 7. -/
theorem claim6_amended_witness :
    ((handler cfgEx c6CleanState (Msg.Commit 7 [4] 0) 8).1).latestFlushLSN
      = c6CleanState.transactionCommitLSN :=
  claim6_amended cfgEx c6CleanState 7 [4] 0 8 rfl (by decide) (by decide)

/-- C4 counterexample: at consistent point 0 the slot-creation branch wraps
the 64-bit subtraction to 2 ^ 64 - 1 instead of saturating to 0. -/
theorem claim4_counterexample :
    createSlotFlushLSN 0 = 2 ^ 64 - 1 ∧ createSlotFlushLSN 0 ≠ 0 := by
  constructor <;> decide

/-- C4 amended: the slot-creation branch computes initialLSN - 1 with
wrapping uint64 semantics: p - 1 for positive p, and 2 ^ 64 - 1 (not 0)
when p = 0. -/
theorem claim4_amended (p : Nat) (hp : p < 2 ^ 64) :
    createSlotFlushLSN p = if p = 0 then 2 ^ 64 - 1 else p - 1 := by
  unfold createSlotFlushLSN
  have h64 : (2 : Nat) ^ 64 = 18446744073709551616 := by norm_num
  rw [h64] at hp ⊢
  by_cases h0 : p = 0
  · subst h0
    norm_num
  · rw [if_neg h0]
    omega

/-- Witness for C4 amended: at consistent point 5 the stored flush LSN is 4. -/
theorem claim4_amended_witness :
    (5 : Nat) < 2 ^ 64
    ∧ createSlotFlushLSN 5 = if (5 : Nat) = 0 then 2 ^ 64 - 1 else 5 - 1 :=
  ⟨by norm_num, claim4_amended 5 (by norm_num)⟩

/-- C9 counterexample: a configured interval of 30 s truncates to 0, which
is below one minute, so the loader does not enforce a one-minute minimum. -/
theorem claim9_counterexample :
    (configNew ⟨30000000000⟩).ForceBasebackupAfterInactivityInterval = 0
    ∧ (configNew ⟨30000000000⟩).ForceBasebackupAfterInactivityInterval < minuteNs := by
  constructor <;> decide

/-- C9 amended: the loader truncates the configured interval to a whole
number of minutes (for a non-negative configured duration the result is
non-negative, no larger than the configured value, and less than one
minute below it); no one-minute lower bound is enforced. -/
theorem claim9_amended (c : FileConfig) :
    goRem (configNew c).ForceBasebackupAfterInactivityInterval minuteNs = 0
    ∧ (0 ≤ c.ForceBasebackupAfterInactivityInterval →
        0 ≤ (configNew c).ForceBasebackupAfterInactivityInterval
        ∧ (configNew c).ForceBasebackupAfterInactivityInterval
            ≤ c.ForceBasebackupAfterInactivityInterval
        ∧ c.ForceBasebackupAfterInactivityInterval
            - (configNew c).ForceBasebackupAfterInactivityInterval < minuteNs) := by
  have hm60 : minuteNs = 60000000000 := by norm_num [minuteNs]
  have hr : (configNew c).ForceBasebackupAfterInactivityInterval
      = minuteNs * (c.ForceBasebackupAfterInactivityInterval.tdiv minuteNs) := by
    simp only [configNew, durationTruncate, goRem]
    rw [if_neg (by rw [hm60]; norm_num)]
    ring
  constructor
  · rw [hr]
    simp only [goRem]
    rw [Int.mul_tdiv_cancel_left _ (by rw [hm60]; norm_num)]
    ring
  · intro hd
    have hq : c.ForceBasebackupAfterInactivityInterval.tdiv minuteNs
        = c.ForceBasebackupAfterInactivityInterval / minuteNs :=
      Int.tdiv_eq_ediv hd (by rw [hm60]; norm_num)
    have hmod := Int.emod_def c.ForceBasebackupAfterInactivityInterval (60000000000 : Int)
    have hmnn := Int.emod_nonneg c.ForceBasebackupAfterInactivityInterval
      (show (60000000000 : Int) ≠ 0 by norm_num)
    have hmlt := Int.emod_lt_of_pos c.ForceBasebackupAfterInactivityInterval
      (show (0 : Int) < 60000000000 by norm_num)
    rw [hr, hq, hm60]
    refine ⟨?_, ?_, ?_⟩ <;> omega

/-- Witness for C9 amended: 90 s truncates to a whole minute within the
stated bounds. -/
theorem claim9_amended_witness :
    goRem (configNew ⟨90000000000⟩).ForceBasebackupAfterInactivityInterval minuteNs = 0
    ∧ 0 ≤ (configNew ⟨90000000000⟩).ForceBasebackupAfterInactivityInterval
    ∧ (configNew ⟨90000000000⟩).ForceBasebackupAfterInactivityInterval ≤ 90000000000
    ∧ (90000000000 : Int)
        - (configNew ⟨90000000000⟩).ForceBasebackupAfterInactivityInterval < minuteNs :=
  ⟨(claim9_amended ⟨90000000000⟩).1,
   ((claim9_amended ⟨90000000000⟩).2 (by decide)).1,
   ((claim9_amended ⟨90000000000⟩).2 (by decide)).2.1,
   ((claim9_amended ⟨90000000000⟩).2 (by decide)).2.2⟩

/-- C7 counterexample: with a staging directory configured, a dirty history
is flushed by an in-place open-truncate-write plus file-and-directory sync
in the staging directory; no operation touches the archive directory and
no rename is performed. -/
theorem claim7_counterexample :
    c7State.isChanged = true
    ∧ (flushOidNameMapOps cfgEx c7State).2
        = [FsOp.openTruncWrite "staging" oidNameMapFile,
           FsOp.syncFileAndDir "staging" oidNameMapFile]
    ∧ cfgEx.archiveDir = "archive"
    ∧ ((flushOidNameMapOps cfgEx c7State).2.all (fun op => !opInDir "archive" op)) = true
    ∧ ((flushOidNameMapOps cfgEx c7State).2.all (fun op => !isRenameOp op)) = true := by
  refine ⟨rfl, ?_, rfl, ?_, ?_⟩ <;> decide

/-- C7 amended: at the end of a transaction whose commit finds the history
dirty, the engine flushes oid2name.yaml into baseDir (staging when set,
archive otherwise) by an in-place open-truncate-write followed by a file
and directory sync, with no temp-file rename anywhere in the commit trace;
a clean history leaves the file untouched. -/
theorem claim7_amended (cfg : Config) (s : EngineState) (lsn : LSN) (craw : Raw)
    (ts : Int) (w : LSN) :
    (((handler cfg s (Msg.Commit lsn craw ts) w).2).all (fun op => !isRenameOp op)) = true
    ∧ (s.isChanged = true →
        ((handler cfg s (Msg.Commit lsn craw ts) w).2).take 2
          = [FsOp.openTruncWrite (baseDir cfg) oidNameMapFile,
             FsOp.syncFileAndDir (baseDir cfg) oidNameMapFile])
    ∧ (s.isChanged = false →
        ((handler cfg s (Msg.Commit lsn craw ts) w).2).all
          (fun op => !opOnFile oidNameMapFile op) = true) := by
  have hh : handler cfg s (Msg.Commit lsn craw ts) w
      = handleCommit cfg { s with currentLSN := w } lsn craw := rfl
  refine ⟨?_, ?_, ?_⟩
  · rw [hh]
    exact handleCommit_all_noRename cfg { s with currentLSN := w } lsn craw
  · intro hc
    rw [hh]
    exact handleCommit_take2_dirty cfg { s with currentLSN := w } lsn craw hc
  · intro hc
    rw [hh]
    exact handleCommit_clean_noOid cfg { s with currentLSN := w } lsn craw hc

/-- Witness for C7 amended: a dirty commit at the example configuration
opens and syncs staging/oid2name.yaml in place. -/
theorem claim7_amended_witness :
    (((handler cfgEx c7State (Msg.Commit 9 [4] 0) 9).2).all
        (fun op => !isRenameOp op)) = true
    ∧ ((handler cfgEx c7State (Msg.Commit 9 [4] 0) 9).2).take 2
        = [FsOp.openTruncWrite (baseDir cfgEx) oidNameMapFile,
           FsOp.syncFileAndDir (baseDir cfgEx) oidNameMapFile] :=
  ⟨(claim7_amended cfgEx c7State 9 [4] 0 9).1,
   (claim7_amended cfgEx c7State 9 [4] 0 9).2.1 rfl⟩

/-- C10: every OID in the participating set maps to a registered writer:
the invariant is preserved by every handler step, makes the commit
branch's unconditional lookup safe, and holds in the initial state. -/
theorem claim10_participation (cfg : Config) (s : EngineState) (m : Msg) (w : LSN)
    (h : ParticipationInv s) :
    ParticipationInv ((handler cfg s m w).1)
    ∧ (∀ oid : OID, s.txBeginRelMsg.contains oid = true →
        getAssoc oid s.backupTables ≠ none)
    ∧ ParticipationInv initialEngineState := by
  refine ⟨?_, ?_, ?_⟩
  · cases m with
    | Relation oid name raw =>
      exact prm_participation cfg { s with currentLSN := w } oid name raw h
    | Insert oid raw =>
      exact pdm_participation cfg { s with currentLSN := w } oid CmdType.cInsert raw h
    | Update oid raw =>
      exact pdm_participation cfg { s with currentLSN := w } oid CmdType.cUpdate raw h
    | Delete oid raw =>
      exact pdm_participation cfg { s with currentLSN := w } oid CmdType.cDelete raw h
    | Begin xid finalLSN raw =>
      intro j hc
      exact absurd hc (by simp [handler])
    | Commit lsn raw ts =>
      exact handleCommit_participation cfg { s with currentLSN := w } lsn raw h
    | Origin => exact h
    | Truncate => exact h
    | TypeMessage raw => exact h
  · intro oid hc
    exact Option.ne_none_iff_isSome.mpr (h oid hc)
  · intro j hc
    exact Bool.noConfusion hc

/-- Witness for C10: the invariant holds after a step from the registered
example state, whose participating set is empty. -/
theorem claim10_participation_witness :
    ParticipationInv ((handler cfgEx sRegistered Msg.Origin 5).1) :=
  (claim10_participation cfgEx sRegistered Msg.Origin 5
    (fun oid hc => Bool.noConfusion hc)).1

theorem adjacentNamesDiffer_append (x : NameAtLSN) :
    ∀ (l : List NameAtLSN), adjacentNamesDiffer l = true →
      (∀ last, l.getLast? = some last → last.Name ≠ x.Name) →
      adjacentNamesDiffer (l ++ [x]) = true := by
  intro l
  induction l with
  | nil => intro _ _; rfl
  | cons a t ih =>
    intro hl hx
    cases t with
    | nil =>
      have hax : a.Name ≠ x.Name := hx a rfl
      simp [adjacentNamesDiffer, hax]
    | cons b t2 =>
      have hl1 : (a.Name != b.Name) = true ∧ adjacentNamesDiffer (b :: t2) = true := by
        have : ((a.Name != b.Name) && adjacentNamesDiffer (b :: t2)) = true := hl
        exact Bool.and_eq_true_iff.mp this
      have hx2 : ∀ last, (b :: t2).getLast? = some last → last.Name ≠ x.Name := by
        intro last hlast
        exact hx last hlast
      have hrec := ih hl1.2 hx2
      show ((a.Name != b.Name) && adjacentNamesDiffer (b :: t2 ++ [x])) = true
      exact Bool.and_eq_true_iff.mpr ⟨hl1.1, hrec⟩

theorem lsnNonDecreasing_append (x : NameAtLSN) :
    ∀ (l : List NameAtLSN), lsnNonDecreasing l = true →
      (∀ last, l.getLast? = some last → last.Lsn ≤ x.Lsn) →
      lsnNonDecreasing (l ++ [x]) = true := by
  intro l
  induction l with
  | nil => intro _ _; rfl
  | cons a t ih =>
    intro hl hx
    cases t with
    | nil =>
      have hax : a.Lsn ≤ x.Lsn := hx a rfl
      simp [lsnNonDecreasing, hax]
    | cons b t2 =>
      have hl1 : (decide (a.Lsn ≤ b.Lsn)) = true ∧ lsnNonDecreasing (b :: t2) = true := by
        have : ((decide (a.Lsn ≤ b.Lsn)) && lsnNonDecreasing (b :: t2)) = true := hl
        exact Bool.and_eq_true_iff.mp this
      have hx2 : ∀ last, (b :: t2).getLast? = some last → last.Lsn ≤ x.Lsn := by
        intro last hlast
        exact hx last hlast
      have hrec := ih hl1.2 hx2
      show ((decide (a.Lsn ≤ b.Lsn)) && lsnNonDecreasing (b :: t2 ++ [x])) = true
      exact Bool.and_eq_true_iff.mpr ⟨hl1.1, hrec⟩

/-- C8 counterexample: registering a rename whose transaction commits at
the same LSN as the previous entry yields two adjacent history entries
with equal LSNs — the history is not strictly ordered by LSN. -/
theorem claim8_counterexample :
    getAssoc 1 c8Final.nameChangeHistory = some [⟨nameT, 100⟩, ⟨nameU, 100⟩]
    ∧ lsnStrictlyIncreasing [⟨nameT, 100⟩, ⟨nameU, 100⟩] = false := by
  constructor <;> decide

/-- C8 amended: maybeRegisterNewName appends (name, transactionCommitLSN)
exactly when the history is missing or its last entry's name differs,
marking the history dirty and pushing the name into the live writer's text
identifier, and leaves the state untouched otherwise; consequently the
history never holds two adjacent entries with the same name and its LSNs
are non-decreasing when appends happen at non-decreasing commit LSNs —
but two renames inside one transaction share a commit LSN, so strict LSN
ordering does not hold. -/
theorem claim8_amended (s : EngineState) (oid : OID) (name : NamespacedName) :
    ((((getAssoc oid s.nameChangeHistory).getD []) = []
        ∨ (∃ l, ((getAssoc oid s.nameChangeHistory).getD []).getLast? = some l
            ∧ l.Name ≠ name)) →
      getAssoc oid (maybeRegisterNewName s oid name).nameChangeHistory
          = some (((getAssoc oid s.nameChangeHistory).getD [])
              ++ [⟨name, s.transactionCommitLSN⟩])
        ∧ (maybeRegisterNewName s oid name).isChanged = true
        ∧ (∀ t, getAssoc oid s.backupTables = some t →
            getAssoc oid (maybeRegisterNewName s oid name).backupTables
              = some { t with textID := name }))
    ∧ ((∃ l, ((getAssoc oid s.nameChangeHistory).getD []).getLast? = some l
          ∧ l.Name = name) →
        maybeRegisterNewName s oid name = s)
    ∧ (adjacentNamesDiffer ((getAssoc oid s.nameChangeHistory).getD []) = true →
        adjacentNamesDiffer
          ((getAssoc oid (maybeRegisterNewName s oid name).nameChangeHistory).getD [])
          = true)
    ∧ (lsnNonDecreasing ((getAssoc oid s.nameChangeHistory).getD []) = true →
        (∀ e ∈ ((getAssoc oid s.nameChangeHistory).getD []),
          e.Lsn ≤ s.transactionCommitLSN) →
        lsnNonDecreasing
          ((getAssoc oid (maybeRegisterNewName s oid name).nameChangeHistory).getD [])
          = true) := by
  have hcond : ∀ (hap : ((getAssoc oid s.nameChangeHistory).getD []) = []
        ∨ (∃ l, ((getAssoc oid s.nameChangeHistory).getD []).getLast? = some l
            ∧ l.Name ≠ name)),
      (((getAssoc oid s.nameChangeHistory).getD []).getLast?).map NameAtLSN.Name
        ≠ some name := by
    intro hap
    rcases hap with he | ⟨l, hl, hn⟩
    · rw [he]
      simp
    · rw [hl]
      simp [hn]
  refine ⟨?_, ?_, ?_, ?_⟩
  · intro hap
    unfold maybeRegisterNewName
    rw [if_pos (hcond hap)]
    refine ⟨by simp, rfl, ?_⟩
    intro t ht
    simp [ht]
  · intro ⟨l, hl, hn⟩
    unfold maybeRegisterNewName
    rw [if_neg]
    simp [hl, hn]
  · intro hadj
    unfold maybeRegisterNewName
    by_cases hc : (((getAssoc oid s.nameChangeHistory).getD []).getLast?).map NameAtLSN.Name
        ≠ some name
    · rw [if_pos hc]
      simp only [getAssoc_setAssoc_self, Option.getD_some]
      refine adjacentNamesDiffer_append _ _ hadj ?_
      intro last hlast hne
      rw [hlast] at hc
      simp [hne] at hc
    · rw [if_neg hc]
      exact hadj
  · intro hnd hle
    unfold maybeRegisterNewName
    by_cases hc : (((getAssoc oid s.nameChangeHistory).getD []).getLast?).map NameAtLSN.Name
        ≠ some name
    · rw [if_pos hc]
      simp only [getAssoc_setAssoc_self, Option.getD_some]
      refine lsnNonDecreasing_append _ _ hnd ?_
      intro last hlast
      exact hle last (List.mem_of_mem_getLast? hlast)
    · rw [if_neg hc]
      exact hnd

/-- Witness for C8 amended: the rename of OID 1 appends the new name at
the current commit LSN and marks the history dirty. -/
theorem claim8_amended_witness :
    getAssoc 1 (maybeRegisterNewName c8State 1 nameU).nameChangeHistory
      = some [⟨nameT, 100⟩, ⟨nameU, 100⟩]
    ∧ (maybeRegisterNewName c8State 1 nameU).isChanged = true :=
  ⟨((claim8_amended c8State 1 nameU).1 (Or.inr ⟨⟨nameT, 100⟩, by decide, by decide⟩)).1,
   ((claim8_amended c8State 1 nameU).1 (Or.inr ⟨⟨nameT, 100⟩, by decide, by decide⟩)).2.1⟩

theorem pdm_beginMsg (cfg : Config) (s : EngineState) (oid : OID) (cmd : CmdType)
    (msg : Raw) :
    (processDMLMessage cfg s oid cmd msg).beginMsg = s.beginMsg := by
  unfold processDMLMessage
  cases h : getAssoc oid s.backupTables with
  | none => rfl
  | some t =>
    dsimp only
    repeat' split
    all_goals simp

theorem pdm_tcl (cfg : Config) (s : EngineState) (oid : OID) (cmd : CmdType)
    (msg : Raw) :
    (processDMLMessage cfg s oid cmd msg).transactionCommitLSN = s.transactionCommitLSN := by
  unfold processDMLMessage
  cases h : getAssoc oid s.backupTables with
  | none => rfl
  | some t =>
    dsimp only
    repeat' split
    all_goals simp

theorem pdm_none (cfg : Config) (s : EngineState) (oid : OID) (cmd : CmdType) (msg : Raw)
    (hg : getAssoc oid s.backupTables = none) :
    processDMLMessage cfg s oid cmd msg = s := by
  unfold processDMLMessage
  rw [hg]

/-- Full characterization of one DML write at a tracked table when no type
message is pending (the handler never populates typeMsg): the begin record
is written lazily once, the pending relation record is written and
consumed, the DML record closes the batch, and other tables' streams are
untouched. -/
theorem pdm_char (cfg : Config) (s : EngineState) (o : OID) (cmd : CmdType) (msg : Raw)
    (hg : (getAssoc o s.backupTables).isSome = true) (hty : s.typeMsg = none) :
    (processDMLMessage cfg s o cmd msg).txBeginRelMsg
        = (if s.txBeginRelMsg.contains o then s.txBeginRelMsg else s.txBeginRelMsg ++ [o])
    ∧ (processDMLMessage cfg s o cmd msg).relationMessages
        = (match getAssoc o s.relationMessages with
           | some _ => eraseAssoc o s.relationMessages
           | none => s.relationMessages)
    ∧ (processDMLMessage cfg s o cmd msg).typeMsg = none
    ∧ streamOf (processDMLMessage cfg s o cmd msg) o
        = streamOf s o
          ++ ((if s.txBeginRelMsg.contains o then []
               else [⟨CmdType.cBegin, s.beginMsg, s.transactionCommitLSN, s.currentLSN⟩])
            ++ (match getAssoc o s.relationMessages with
                | some rm => [⟨CmdType.cRelation, rm, s.transactionCommitLSN, s.currentLSN⟩]
                | none => [])
            ++ [⟨cmd, msg, s.transactionCommitLSN, s.currentLSN⟩])
    ∧ (∀ j, j ≠ o → streamOf (processDMLMessage cfg s o cmd msg) j = streamOf s j) := by
  cases hgx : getAssoc o s.backupTables with
  | none =>
    rw [hgx] at hg
    simp at hg
  | some t =>
  unfold processDMLMessage
  rw [hgx]
  dsimp only
  by_cases hc : s.txBeginRelMsg.contains o = true
  · have hcm : o ∈ s.txBeginRelMsg := (containsIffMem _ _).mp hc
    rw [if_pos hc]
    simp only [WCD_typeMsg, WCD_relationMessages, hty]
    cases hrel : getAssoc o s.relationMessages with
    | some rm =>
      simp only [hrel]
      refine ⟨by simp [hcm], by simp, by simp [hty], ?_, ?_⟩
      · simp [hcm, streamOf, WriteCommandDataForTable, WriteDelta_stream, hgx]
      · intro j hj
        simp [streamOf, WriteCommandDataForTable, getAssoc_updateAssoc_ne, hj]
    | none =>
      simp only [hrel]
      refine ⟨by simp [hcm], by simp, by simp [hty], ?_, ?_⟩
      · simp [hcm, streamOf, WriteCommandDataForTable, WriteDelta_stream, hgx]
      · intro j hj
        simp [streamOf, WriteCommandDataForTable, getAssoc_updateAssoc_ne, hj]
  · have hcm : o ∉ s.txBeginRelMsg := fun hm => hc ((containsIffMem _ _).mpr hm)
    rw [if_neg hc]
    simp only [WCD_typeMsg, WCD_relationMessages, hty]
    cases hrel : getAssoc o s.relationMessages with
    | some rm =>
      simp only [hrel]
      refine ⟨by simp [hcm], by simp, by simp [hty], ?_, ?_⟩
      · simp [hcm, streamOf, WriteCommandDataForTable, WriteDelta_stream, hgx]
      · intro j hj
        simp [streamOf, WriteCommandDataForTable, getAssoc_updateAssoc_ne, hj]
    | none =>
      simp only [hrel]
      refine ⟨by simp [hcm], by simp, by simp [hty], ?_, ?_⟩
      · simp [hcm, streamOf, WriteCommandDataForTable, WriteDelta_stream, hgx]
      · intro j hj
        simp [streamOf, WriteCommandDataForTable, getAssoc_updateAssoc_ne, hj]

theorem contains_false_iff (l : List OID) (a : OID) : l.contains a = false ↔ a ∉ l := by
  constructor
  · intro hx hm
    rw [(containsIffMem l a).mpr hm] at hx
    exact Bool.noConfusion hx
  · intro hnm
    cases hx : l.contains a with
    | false => rfl
    | true => exact absurd ((containsIffMem l a).mp hx) hnm

theorem contains_append_self (l : List OID) (a : OID) : (l ++ [a]).contains a = true :=
  (containsIffMem _ _).mpr (List.mem_append.mpr (Or.inr (List.mem_singleton.mpr rfl)))

theorem contains_append_ne (l : List OID) (a b : OID) (h : b ≠ a) :
    (l ++ [a]).contains b = l.contains b := by
  cases hx : l.contains b with
  | true =>
    exact (containsIffMem _ _).mpr (List.mem_append.mpr (Or.inl ((containsIffMem _ _).mp hx)))
  | false =>
    refine (contains_false_iff _ _).mpr ?_
    intro hm
    rcases List.mem_append.mp hm with hm1 | hm2
    · exact (contains_false_iff _ _).mp hx hm1
    · exact h (by simpa using hm2)

theorem nodup_append_single (l : List OID) (a : OID) (h : l.Nodup) (ha : a ∉ l) :
    (l ++ [a]).Nodup := by
  simp [List.nodup_append, h, ha]

theorem prm_notrack (cfg : Config) (s : EngineState) (o : OID) (nm : NamespacedName)
    (raw : Raw) (hg : getAssoc o s.backupTables = none)
    (ht : cfg.trackNewTables = false) :
    processRelationMessage cfg s o nm raw = s := by
  unfold processRelationMessage registerNewTable
  simp [hg, ht]

theorem prm_reg_eq (cfg : Config) (s : EngineState) (o : OID) (nm : NamespacedName)
    (raw : Raw) (hg : (getAssoc o s.backupTables).isSome = true) :
    processRelationMessage cfg s o nm raw
      = stashRelation (maybeRegisterNewName s o nm) o raw := by
  unfold processRelationMessage
  rw [if_pos hg]

theorem prm_track_eq (cfg : Config) (s : EngineState) (o : OID) (nm : NamespacedName)
    (raw : Raw) (hg : getAssoc o s.backupTables = none)
    (ht : cfg.trackNewTables = true) :
    processRelationMessage cfg s o nm raw
      = stashRelation
          (maybeRegisterNewName
            { s with backupTables := setAssoc o (newTableState nm) s.backupTables } o nm)
          o raw := by
  unfold processRelationMessage registerNewTable
  simp [hg, ht]

@[simp]
theorem stash_backupTables (s : EngineState) (o : OID) (raw : Raw) :
    (stashRelation s o raw).backupTables = s.backupTables := rfl

@[simp]
theorem stash_relationMessages (s : EngineState) (o : OID) (raw : Raw) :
    (stashRelation s o raw).relationMessages = setAssoc o raw s.relationMessages := rfl

@[simp]
theorem stash_txBeginRelMsg (s : EngineState) (o : OID) (raw : Raw) :
    (stashRelation s o raw).txBeginRelMsg = s.txBeginRelMsg := rfl

@[simp]
theorem stash_typeMsg (s : EngineState) (o : OID) (raw : Raw) :
    (stashRelation s o raw).typeMsg = s.typeMsg := rfl

@[simp]
theorem stash_beginMsg (s : EngineState) (o : OID) (raw : Raw) :
    (stashRelation s o raw).beginMsg = s.beginMsg := rfl

@[simp]
theorem stash_tcl (s : EngineState) (o : OID) (raw : Raw) :
    (stashRelation s o raw).transactionCommitLSN = s.transactionCommitLSN := rfl

theorem stash_streamOf (s : EngineState) (o : OID) (raw : Raw) (j : OID) :
    streamOf (stashRelation s o raw) j = streamOf s j := rfl

theorem txInv_step_dml (cfg : Config) (s0 : EngineState) (oid : OID) (braw : Raw)
    (tcl : LSN) (s : EngineState) (v : TxView) (o : OID) (cmd : CmdType) (raw0 : Raw)
    (w : LSN) (hinv : TxInv s0 oid braw tcl s v) :
    TxInv s0 oid braw tcl (processDMLMessage cfg { s with currentLSN := w } o cmd raw0)
      (txViewDML oid braw tcl v o cmd raw0 w) := by
  obtain ⟨h1, h2, h3, h4, h5, h6, h7, h8, h9, h10⟩ := hinv
  by_cases hreg : (getAssoc o s.backupTables).isSome = true
  · have hg : (getAssoc o ({ s with currentLSN := w } : EngineState).backupTables).isSome
        = true := hreg
    have hty : ({ s with currentLSN := w } : EngineState).typeMsg = none := h5
    have hch := pdm_char cfg { s with currentLSN := w } o cmd raw0 hg hty
    have c1 : (processDMLMessage cfg { s with currentLSN := w } o cmd raw0).txBeginRelMsg
        = (if s.txBeginRelMsg.contains o then s.txBeginRelMsg
           else s.txBeginRelMsg ++ [o]) := hch.1
    have c2 : (processDMLMessage cfg { s with currentLSN := w } o cmd raw0).relationMessages
        = (match getAssoc o s.relationMessages with
           | some _ => eraseAssoc o s.relationMessages
           | none => s.relationMessages) := hch.2.1
    have c3 : (processDMLMessage cfg { s with currentLSN := w } o cmd raw0).typeMsg
        = none := hch.2.2.1
    have c4 : streamOf (processDMLMessage cfg { s with currentLSN := w } o cmd raw0) o
        = streamOf s o
          ++ ((if s.txBeginRelMsg.contains o then []
               else [⟨CmdType.cBegin, s.beginMsg, s.transactionCommitLSN, w⟩])
            ++ (match getAssoc o s.relationMessages with
                | some rm => [⟨CmdType.cRelation, rm, s.transactionCommitLSN, w⟩]
                | none => [])
            ++ [⟨cmd, raw0, s.transactionCommitLSN, w⟩]) := hch.2.2.2.1
    have c5 : ∀ j, j ≠ o →
        streamOf (processDMLMessage cfg { s with currentLSN := w } o cmd raw0) j
          = streamOf s j := hch.2.2.2.2
    by_cases ho : o = oid
    · subst ho
      have hvreg : v.registered = true := by rw [h1] at hreg; exact hreg
      have hv : txViewDML o braw tcl v o cmd raw0 w
          = { registered := true, pendingRel := none, begun := true,
              recs := v.recs ++ dmlChunk braw tcl v cmd raw0 w } := by
        unfold txViewDML
        rw [if_pos ⟨rfl, hvreg⟩]
      rw [hv]
      refine ⟨?_, ?_, ?_, ?_, ?_, ?_, ?_, ?_, ?_, ?_⟩
      · rw [pdm_isSome]
        exact hreg
      · rw [c2, h2]
        cases hpd : v.pendingRel with
        | some rm => simp
        | none => exact h2.trans hpd
      · rw [c1]
        cases hbg : v.begun with
        | true => rw [if_pos (h3.trans hbg)]; exact h3.trans hbg
        | false =>
          have hfalse : s.txBeginRelMsg.contains o = false := h3.trans hbg
          rw [if_neg (by rw [hfalse]; exact Bool.false_ne_true)]
          exact contains_append_self _ _
      · rw [c4, h6, h7, h4, h3, h2]
        simp [dmlChunk, List.append_assoc]
      · exact c3
      · rw [pdm_beginMsg]
        exact h6
      · rw [pdm_tcl]
        exact h7
      · intro hcontra
        exact Bool.noConfusion hcontra
      · rw [c1]
        cases hbg : v.begun with
        | true => rw [if_pos (h3.trans hbg)]; exact h9
        | false =>
          have hfalse : s.txBeginRelMsg.contains o = false := h3.trans hbg
          rw [if_neg (by rw [hfalse]; exact Bool.false_ne_true)]
          exact nodup_append_single _ _ h9 ((contains_false_iff _ _).mp hfalse)
      · intro _
        rfl
    · have hv : txViewDML oid braw tcl v o cmd raw0 w = v := by
        unfold txViewDML
        rw [if_neg]
        rintro ⟨he, _⟩
        exact ho he
      rw [hv]
      refine ⟨?_, ?_, ?_, ?_, ?_, ?_, ?_, ?_, ?_, ?_⟩
      · rw [pdm_isSome]
        exact h1
      · rw [c2]
        cases hrel : getAssoc o s.relationMessages with
        | some rm =>
          show getAssoc oid (eraseAssoc o s.relationMessages) = v.pendingRel
          rw [getAssoc_eraseAssoc_ne oid o s.relationMessages (fun he => ho he.symm)]
          exact h2
        | none =>
          exact h2
      · rw [c1]
        cases hco : s.txBeginRelMsg.contains o with
        | true => rw [if_pos rfl]; exact h3
        | false =>
          rw [if_neg Bool.false_ne_true]
          rw [contains_append_ne _ _ _ (Ne.symm ho)]
          exact h3
      · rw [c5 oid (Ne.symm ho)]
        exact h4
      · exact c3
      · rw [pdm_beginMsg]
        exact h6
      · rw [pdm_tcl]
        exact h7
      · exact h8
      · rw [c1]
        cases hco : s.txBeginRelMsg.contains o with
        | true => rw [if_pos rfl]; exact h9
        | false =>
          rw [if_neg Bool.false_ne_true]
          exact nodup_append_single _ _ h9 ((contains_false_iff _ _).mp hco)
      · exact h10
  · have hg0 : getAssoc o s.backupTables = none := by
      cases hx : getAssoc o s.backupTables with
      | none => rfl
      | some t => rw [hx] at hreg; simp at hreg
    have hpd : processDMLMessage cfg { s with currentLSN := w } o cmd raw0
        = { s with currentLSN := w } := pdm_none cfg _ o cmd raw0 hg0
    have hv : txViewDML oid braw tcl v o cmd raw0 w = v := by
      unfold txViewDML
      rw [if_neg]
      rintro ⟨he, hr⟩
      subst he
      rw [h1] at hreg
      exact hreg hr
    rw [hpd, hv]
    exact ⟨h1, h2, h3, h4, h5, h6, h7, h8, h9, h10⟩

theorem txInv_step_rel (cfg : Config) (s0 : EngineState) (oid : OID) (braw : Raw)
    (tcl : LSN) (s : EngineState) (v : TxView) (o : OID) (nm : NamespacedName)
    (raw0 : Raw) (w : LSN) (hinv : TxInv s0 oid braw tcl s v) :
    TxInv s0 oid braw tcl (processRelationMessage cfg { s with currentLSN := w } o nm raw0)
      (txViewStep cfg oid braw tcl v (Msg.Relation o nm raw0, w)) := by
  obtain ⟨h1, h2, h3, h4, h5, h6, h7, h8, h9, h10⟩ := hinv
  by_cases hreg : (getAssoc o s.backupTables).isSome = true
  · have heq : processRelationMessage cfg { s with currentLSN := w } o nm raw0
        = stashRelation (maybeRegisterNewName { s with currentLSN := w } o nm) o raw0 :=
      prm_reg_eq cfg _ o nm raw0 hreg
    rw [heq]
    by_cases ho : o = oid
    · subst ho
      have hvreg : v.registered = true := by rw [h1] at hreg; exact hreg
      have hv : txViewStep cfg o braw tcl v (Msg.Relation o nm raw0, w)
          = { v with pendingRel := some raw0 } := by
        unfold txViewStep
        dsimp only
        rw [if_pos rfl, if_pos hvreg]
      rw [hv]
      refine ⟨?_, ?_, ?_, ?_, ?_, ?_, ?_, ?_, ?_, ?_⟩
      · rw [stash_backupTables, mRNN_getAssoc_isSome]
        exact h1
      · rw [stash_relationMessages, mRNN_relationMessages]
        simp
      · rw [stash_txBeginRelMsg, mRNN_txBeginRelMsg]
        exact h3
      · rw [stash_streamOf, mRNN_streamOf]
        exact h4
      · rw [stash_typeMsg, mRNN_typeMsg]
        exact h5
      · rw [stash_beginMsg, mRNN_beginMsg]
        exact h6
      · rw [stash_tcl, mRNN_tcl]
        exact h7
      · intro hf
        have hf2 : v.registered = false := hf
        rw [hvreg] at hf2
        exact Bool.noConfusion hf2
      · rw [stash_txBeginRelMsg, mRNN_txBeginRelMsg]
        exact h9
      · exact h10
    · have hv : txViewStep cfg oid braw tcl v (Msg.Relation o nm raw0, w) = v := by
        unfold txViewStep
        dsimp only
        rw [if_neg ho]
      rw [hv]
      refine ⟨?_, ?_, ?_, ?_, ?_, ?_, ?_, ?_, ?_, ?_⟩
      · rw [stash_backupTables, mRNN_getAssoc_isSome]
        exact h1
      · rw [stash_relationMessages, mRNN_relationMessages,
          getAssoc_setAssoc_ne oid o raw0 _ (fun he => ho he.symm)]
        exact h2
      · rw [stash_txBeginRelMsg, mRNN_txBeginRelMsg]
        exact h3
      · rw [stash_streamOf, mRNN_streamOf]
        exact h4
      · rw [stash_typeMsg, mRNN_typeMsg]
        exact h5
      · rw [stash_beginMsg, mRNN_beginMsg]
        exact h6
      · rw [stash_tcl, mRNN_tcl]
        exact h7
      · exact h8
      · rw [stash_txBeginRelMsg, mRNN_txBeginRelMsg]
        exact h9
      · exact h10
  · have hg0 : getAssoc o s.backupTables = none := by
      cases hx : getAssoc o s.backupTables with
      | none => rfl
      | some t => rw [hx] at hreg; simp at hreg
    have hg0w : getAssoc o ({ s with currentLSN := w } : EngineState).backupTables
        = none := hg0
    by_cases htr : cfg.trackNewTables = true
    · have heq := prm_track_eq cfg { s with currentLSN := w } o nm raw0 hg0w htr
      rw [heq]
      by_cases ho : o = oid
      · subst ho
        have hvreg : v.registered = false := by
          cases hr : v.registered with
          | false => rfl
          | true => exact absurd (h1.trans hr) hreg
        have h8s := h8 hvreg
        have hv : txViewStep cfg o braw tcl v (Msg.Relation o nm raw0, w)
            = { v with registered := true, pendingRel := some raw0 } := by
          unfold txViewStep
          dsimp only
          rw [if_pos rfl, if_neg (by rw [hvreg]; exact Bool.false_ne_true), if_pos htr]
        rw [hv]
        refine ⟨?_, ?_, ?_, ?_, ?_, ?_, ?_, ?_, ?_, ?_⟩
        · rw [stash_backupTables, mRNN_getAssoc_isSome]
          simp
        · rw [stash_relationMessages, mRNN_relationMessages]
          simp
        · rw [stash_txBeginRelMsg, mRNN_txBeginRelMsg]
          exact h3
        · rw [stash_streamOf, mRNN_streamOf, h8s.1, h8s.2]
          simp [streamOf, newTableState]
        · rw [stash_typeMsg, mRNN_typeMsg]
          exact h5
        · rw [stash_beginMsg, mRNN_beginMsg]
          exact h6
        · rw [stash_tcl, mRNN_tcl]
          exact h7
        · intro hf
          exact Bool.noConfusion hf
        · rw [stash_txBeginRelMsg, mRNN_txBeginRelMsg]
          exact h9
        · intro _
          rfl
      · have hv : txViewStep cfg oid braw tcl v (Msg.Relation o nm raw0, w) = v := by
          unfold txViewStep
          dsimp only
          rw [if_neg ho]
        rw [hv]
        refine ⟨?_, ?_, ?_, ?_, ?_, ?_, ?_, ?_, ?_, ?_⟩
        · rw [stash_backupTables, mRNN_getAssoc_isSome]
          show (getAssoc oid
              (setAssoc o (newTableState nm)
                ({ s with currentLSN := w } : EngineState).backupTables)).isSome
            = v.registered
          rw [getAssoc_setAssoc_ne oid o _ _ (fun he => ho he.symm)]
          exact h1
        · rw [stash_relationMessages, mRNN_relationMessages,
            getAssoc_setAssoc_ne oid o raw0 _ (fun he => ho he.symm)]
          exact h2
        · rw [stash_txBeginRelMsg, mRNN_txBeginRelMsg]
          exact h3
        · rw [stash_streamOf, mRNN_streamOf]
          show ((getAssoc oid
              (setAssoc o (newTableState nm)
                ({ s with currentLSN := w } : EngineState).backupTables)).map
              TableState.stream).getD []
            = streamOf s0 oid ++ v.recs
          rw [getAssoc_setAssoc_ne oid o _ _ (fun he => ho he.symm)]
          exact h4
        · rw [stash_typeMsg, mRNN_typeMsg]
          exact h5
        · rw [stash_beginMsg, mRNN_beginMsg]
          exact h6
        · rw [stash_tcl, mRNN_tcl]
          exact h7
        · exact h8
        · rw [stash_txBeginRelMsg, mRNN_txBeginRelMsg]
          exact h9
        · exact h10
    · have htrf : cfg.trackNewTables = false := by
        cases ht : cfg.trackNewTables with
        | false => rfl
        | true => exact absurd ht htr
      have heq := prm_notrack cfg { s with currentLSN := w } o nm raw0 hg0w htrf
      rw [heq]
      have hv : txViewStep cfg oid braw tcl v (Msg.Relation o nm raw0, w) = v := by
        unfold txViewStep
        dsimp only
        by_cases ho : o = oid
        · subst ho
          have hvreg : v.registered = false := by
            cases hr : v.registered with
            | false => rfl
            | true => exact absurd (h1.trans hr) hreg
          rw [if_pos rfl, if_neg (by rw [hvreg]; exact Bool.false_ne_true),
            if_neg (by rw [htrf]; exact Bool.false_ne_true)]
        · rw [if_neg ho]
      rw [hv]
      exact ⟨h1, h2, h3, h4, h5, h6, h7, h8, h9, h10⟩

theorem txInv_step (cfg : Config) (s0 : EngineState) (oid : OID) (braw : Raw)
    (tcl : LSN) (s : EngineState) (v : TxView) (m : Msg) (w : LSN)
    (hb : isTxBoundary m = false) (hinv : TxInv s0 oid braw tcl s v) :
    TxInv s0 oid braw tcl (stepState cfg s (m, w))
      (txViewStep cfg oid braw tcl v (m, w)) := by
  cases m with
  | Relation o nm raw0 => exact txInv_step_rel cfg s0 oid braw tcl s v o nm raw0 w hinv
  | Insert o raw0 => exact txInv_step_dml cfg s0 oid braw tcl s v o CmdType.cInsert raw0 w hinv
  | Update o raw0 => exact txInv_step_dml cfg s0 oid braw tcl s v o CmdType.cUpdate raw0 w hinv
  | Delete o raw0 => exact txInv_step_dml cfg s0 oid braw tcl s v o CmdType.cDelete raw0 w hinv
  | Begin xid f raw0 => simp [isTxBoundary] at hb
  | Commit l r t => simp [isTxBoundary] at hb
  | Origin => exact hinv
  | Truncate => exact hinv
  | TypeMessage r => exact hinv

theorem txInv_begin (cfg : Config) (s0 : EngineState) (oid : OID) (braw : Raw)
    (tcl : LSN) (xid : Int) (w0 : LSN) (hty : s0.typeMsg = none) :
    TxInv s0 oid braw tcl (stepState cfg s0 (Msg.Begin xid tcl braw, w0))
      (initialTxView s0 oid) := by
  refine ⟨rfl, rfl, rfl, ?_, hty, rfl, rfl, ?_, List.nodup_nil, ?_⟩
  · show streamOf (stepState cfg s0 (Msg.Begin xid tcl braw, w0)) oid
      = streamOf s0 oid ++ ([] : List Rec)
    rw [List.append_nil]
    rfl
  · intro hf
    constructor
    · have hf2 : (getAssoc oid s0.backupTables).isSome = false := hf
      cases hx : getAssoc oid s0.backupTables with
      | none => simp [streamOf, hx]
      | some t => rw [hx] at hf2; simp at hf2
    · rfl
  · intro hbg
    exact Bool.noConfusion hbg

theorem txInv_run (cfg : Config) (s0 : EngineState) (oid : OID) (braw : Raw)
    (tcl : LSN) :
    ∀ (body : List (Msg × LSN)) (s : EngineState) (v : TxView),
      (∀ p ∈ body, isTxBoundary p.1 = false) →
      TxInv s0 oid braw tcl s v →
      TxInv s0 oid braw tcl (runMsgs cfg s body)
        (body.foldl (txViewStep cfg oid braw tcl) v) := by
  intro body
  induction body with
  | nil => intro s v _ hinv; exact hinv
  | cons p t ih =>
    intro s v hb hinv
    show TxInv s0 oid braw tcl (runMsgs cfg (stepState cfg s p) t)
      (t.foldl (txViewStep cfg oid braw tcl) (txViewStep cfg oid braw tcl v p))
    exact ih _ _ (fun q hq => hb q (List.mem_cons_of_mem _ hq))
      (txInv_step cfg s0 oid braw tcl s v p.1 p.2 (hb p (List.mem_cons_self _ _)) hinv)

theorem txInv_commit (cfg : Config) (s0 : EngineState) (oid : OID) (braw : Raw)
    (tcl : LSN) (s : EngineState) (v : TxView) (clsn : LSN) (craw : Raw) (ts : Int)
    (wc : LSN) (hinv : TxInv s0 oid braw tcl s v) (hbeg : v.begun = true) :
    streamOf (stepState cfg s (Msg.Commit clsn craw ts, wc)) oid
      = (streamOf s0 oid ++ v.recs) ++ [⟨CmdType.cCommit, craw, tcl, clsn⟩] := by
  obtain ⟨h1, h2, h3, h4, h5, h6, h7, h8, h9, h10⟩ := hinv
  have hstep : stepState cfg s (Msg.Commit clsn craw ts, wc)
      = (handleCommit cfg { s with currentLSN := wc } clsn craw).1 := rfl
  rw [hstep]
  have hs3 : streamOf (handleCommit cfg { s with currentLSN := wc } clsn craw).1 oid
      = streamOf (commitWriteRecords cfg
          { { s with currentLSN := wc } with currentLSN := clsn } craw) oid := by
    unfold handleCommit streamOf
    dsimp only
    rw [flushAdvance_backupTables, flushOid_backupTables]
  rw [hs3]
  have hmem : oid ∈ ({ { s with currentLSN := wc } with currentLSN := clsn }
      : EngineState).txBeginRelMsg :=
    (containsIffMem _ _).mp (h3.trans hbeg)
  have hnd : ({ { s with currentLSN := wc } with currentLSN := clsn }
      : EngineState).txBeginRelMsg.Nodup := h9
  have hsome : (getAssoc oid ({ { s with currentLSN := wc } with currentLSN := clsn }
      : EngineState).backupTables).isSome = true := by
    have : (getAssoc oid s.backupTables).isSome = true := by
      rw [h1]
      exact h10 hbeg
    exact this
  have hcwr : streamOf (commitWriteRecords cfg
        { { s with currentLSN := wc } with currentLSN := clsn } craw) oid
      = streamOf s oid ++ [⟨CmdType.cCommit, craw, s.transactionCommitLSN, clsn⟩] :=
    commitFold_streamOf_mem cfg craw _ _ oid hnd hmem hsome
  rw [hcwr, h4, h7]

theorem txViewStep_shape (cfg : Config) (oid : OID) (braw : Raw) (tcl : LSN)
    (v : TxView) (p : Msg × LSN)
    (hsh : (v.begun = false → v.recs = [])
      ∧ (v.begun = true → ∃ w rest, v.recs = ⟨CmdType.cBegin, braw, tcl, w⟩ :: rest
          ∧ ∀ r ∈ rest, r.cmd ≠ CmdType.cBegin ∧ r.cmd ≠ CmdType.cType
              ∧ r.cmd ≠ CmdType.cCommit)) :
    (let v2 := txViewStep cfg oid braw tcl v p
     (v2.begun = false → v2.recs = [])
     ∧ (v2.begun = true → ∃ w rest, v2.recs = ⟨CmdType.cBegin, braw, tcl, w⟩ :: rest
         ∧ ∀ r ∈ rest, r.cmd ≠ CmdType.cBegin ∧ r.cmd ≠ CmdType.cType
             ∧ r.cmd ≠ CmdType.cCommit)) := by
  obtain ⟨p1, p2⟩ := p
  have hdml : ∀ (o : OID) (cmd : CmdType) (raw0 : Raw),
      cmd ≠ CmdType.cBegin → cmd ≠ CmdType.cType → cmd ≠ CmdType.cCommit →
      (let v2 := txViewDML oid braw tcl v o cmd raw0 p2
       (v2.begun = false → v2.recs = [])
       ∧ (v2.begun = true → ∃ w rest, v2.recs = ⟨CmdType.cBegin, braw, tcl, w⟩ :: rest
           ∧ ∀ r ∈ rest, r.cmd ≠ CmdType.cBegin ∧ r.cmd ≠ CmdType.cType
               ∧ r.cmd ≠ CmdType.cCommit)) := by
    intro o cmd raw0 hcb hct hcc
    unfold txViewDML
    by_cases hcond : o = oid ∧ v.registered = true
    · rw [if_pos hcond]
      dsimp only
      refine ⟨fun hf => Bool.noConfusion hf, fun _ => ?_⟩
      cases hbg : v.begun with
      | false =>
        have hre : v.recs = [] := hsh.1 hbg
        refine ⟨p2, (match v.pendingRel with
          | some r => [⟨CmdType.cRelation, r, tcl, p2⟩]
          | none => []) ++ [⟨cmd, raw0, tcl, p2⟩], ?_, ?_⟩
        · rw [hre]
          unfold dmlChunk
          rw [hbg]
          simp
        · intro r hr
          rcases List.mem_append.mp hr with hr1 | hr2
          · cases hpd : v.pendingRel with
            | some rr =>
              rw [hpd] at hr1
              have : r = ⟨CmdType.cRelation, rr, tcl, p2⟩ := by simpa using hr1
              subst this
              exact ⟨by simp, by simp, by simp⟩
            | none =>
              rw [hpd] at hr1
              simp at hr1
          · have : r = ⟨cmd, raw0, tcl, p2⟩ := by simpa using hr2
            subst this
            exact ⟨hcb, hct, hcc⟩
      | true =>
        obtain ⟨w1, rest, hre, hrest⟩ := hsh.2 hbg
        refine ⟨w1, rest ++ dmlChunk braw tcl v cmd raw0 p2, ?_, ?_⟩
        · rw [hre]
          simp
        · intro r hr
          rcases List.mem_append.mp hr with hr1 | hr2
          · exact hrest r hr1
          · unfold dmlChunk at hr2
            rw [hbg] at hr2
            simp only [if_true] at hr2
            rcases List.mem_append.mp hr2 with hr3 | hr4
            · rcases List.mem_append.mp hr3 with hr5 | hr6
              · simp at hr5
              · cases hpd : v.pendingRel with
                | some rr =>
                  rw [hpd] at hr6
                  have : r = ⟨CmdType.cRelation, rr, tcl, p2⟩ := by simpa using hr6
                  subst this
                  exact ⟨by simp, by simp, by simp⟩
                | none =>
                  rw [hpd] at hr6
                  simp at hr6
            · have : r = ⟨cmd, raw0, tcl, p2⟩ := by simpa using hr4
              subst this
              exact ⟨hcb, hct, hcc⟩
    · rw [if_neg hcond]
      exact hsh
  have hpres : ∀ v2 : TxView, v2.begun = v.begun → v2.recs = v.recs →
      ((v2.begun = false → v2.recs = [])
       ∧ (v2.begun = true → ∃ w rest, v2.recs = ⟨CmdType.cBegin, braw, tcl, w⟩ :: rest
           ∧ ∀ r ∈ rest, r.cmd ≠ CmdType.cBegin ∧ r.cmd ≠ CmdType.cType
               ∧ r.cmd ≠ CmdType.cCommit)) := by
    intro v2 hb hr
    refine ⟨fun hf => ?_, fun htt => ?_⟩
    · rw [hr]
      exact hsh.1 (by rw [hb] at hf; exact hf)
    · rw [hr]
      exact hsh.2 (by rw [hb] at htt; exact htt)
  cases p1 with
  | Relation o nm raw0 =>
    refine hpres _ ?_ ?_
    · unfold txViewStep
      dsimp only
      repeat' split
      all_goals rfl
    · unfold txViewStep
      dsimp only
      repeat' split
      all_goals rfl
  | Insert o raw0 => exact hdml o CmdType.cInsert raw0 (by simp) (by simp) (by simp)
  | Update o raw0 => exact hdml o CmdType.cUpdate raw0 (by simp) (by simp) (by simp)
  | Delete o raw0 => exact hdml o CmdType.cDelete raw0 (by simp) (by simp) (by simp)
  | Begin xid f raw0 => exact hsh
  | Commit l r t => exact hsh
  | Origin => exact hsh
  | Truncate => exact hsh
  | TypeMessage r => exact hsh

theorem txView_shape (cfg : Config) (oid : OID) (braw : Raw) (tcl : LSN) :
    ∀ (body : List (Msg × LSN)) (v : TxView),
      ((v.begun = false → v.recs = [])
       ∧ (v.begun = true → ∃ w rest, v.recs = ⟨CmdType.cBegin, braw, tcl, w⟩ :: rest
           ∧ ∀ r ∈ rest, r.cmd ≠ CmdType.cBegin ∧ r.cmd ≠ CmdType.cType
               ∧ r.cmd ≠ CmdType.cCommit)) →
      (let v2 := body.foldl (txViewStep cfg oid braw tcl) v
       (v2.begun = false → v2.recs = [])
       ∧ (v2.begun = true → ∃ w rest, v2.recs = ⟨CmdType.cBegin, braw, tcl, w⟩ :: rest
           ∧ ∀ r ∈ rest, r.cmd ≠ CmdType.cBegin ∧ r.cmd ≠ CmdType.cType
               ∧ r.cmd ≠ CmdType.cCommit)) := by
  intro body
  induction body with
  | nil => intro v hsh; exact hsh
  | cons p t ih =>
    intro v hsh
    exact ih (txViewStep cfg oid braw tcl v p) (txViewStep_shape cfg oid braw tcl v p hsh)

/-- C1 counterexample: a transaction that receives a Type message and one
Insert for a participating table commits, yet the table's stream contains
no type record at all — the handler's Type case is an empty TODO and the
deferred type buffer is never populated, so the received type message is
not written to the participating table. -/
theorem claim1_counterexample :
    (Msg.TypeMessage [9], (91 : LSN)) ∈ c1Frames
    ∧ c1Final.txBeginRelMsg.contains 1 = true
    ∧ streamOf c1Final 1
        = [⟨CmdType.cBegin, [1, 2], 100, 92⟩, ⟨CmdType.cInsert, [3], 100, 92⟩,
           ⟨CmdType.cCommit, [4], 100, 100⟩]
    ∧ (∀ r ∈ streamOf c1Final 1, r.cmd ≠ CmdType.cType) := by
  refine ⟨?_, ?_, ?_, ?_⟩ <;> decide

/-- C1 amended: for every transaction reaching its Commit, each
participating table's stream gains, in order, the transaction's begin
record before the table's first DML, then only relation and DML records
(the per-table view computes them exactly: each DML is preceded by the
pending relation record when one exists), and finally the commit record;
type records never appear, because the handler ignores Type messages and
the deferred type buffer stays empty. -/
theorem claim1_amended (cfg : Config) (s0 : EngineState) (oid : OID) (xid : Int)
    (tcl : LSN) (braw : Raw) (w0 : LSN) (body : List (Msg × LSN)) (clsn : LSN)
    (craw : Raw) (cts : Int) (wc : LSN)
    (hty : s0.typeMsg = none)
    (hbody : ∀ p ∈ body, isTxBoundary p.1 = false) :
    (runMsgs cfg (stepState cfg s0 (Msg.Begin xid tcl braw, w0)) body).txBeginRelMsg.contains oid
        = (body.foldl (txViewStep cfg oid braw tcl) (initialTxView s0 oid)).begun
    ∧ ((body.foldl (txViewStep cfg oid braw tcl) (initialTxView s0 oid)).begun = true →
        streamOf
            (stepState cfg
              (runMsgs cfg (stepState cfg s0 (Msg.Begin xid tcl braw, w0)) body)
              (Msg.Commit clsn craw cts, wc)) oid
          = (streamOf s0 oid
              ++ (body.foldl (txViewStep cfg oid braw tcl) (initialTxView s0 oid)).recs)
            ++ [⟨CmdType.cCommit, craw, tcl, clsn⟩]
        ∧ ∃ w rest,
            (body.foldl (txViewStep cfg oid braw tcl) (initialTxView s0 oid)).recs
              = ⟨CmdType.cBegin, braw, tcl, w⟩ :: rest
            ∧ ∀ r ∈ rest, r.cmd ≠ CmdType.cBegin ∧ r.cmd ≠ CmdType.cType
                ∧ r.cmd ≠ CmdType.cCommit)
    ∧ (∀ r ∈ (body.foldl (txViewStep cfg oid braw tcl) (initialTxView s0 oid)).recs,
        r.cmd ≠ CmdType.cType) := by
  have hbase := txInv_begin cfg s0 oid braw tcl xid w0 hty
  have hrun := txInv_run cfg s0 oid braw tcl body _ _ hbody hbase
  have hshape := txView_shape cfg oid braw tcl body (initialTxView s0 oid)
    ⟨fun _ => rfl, fun h => Bool.noConfusion h⟩
  refine ⟨hrun.2.2.1, ?_, ?_⟩
  · intro hbeg
    exact ⟨txInv_commit cfg s0 oid braw tcl _ _ clsn craw cts wc hrun hbeg,
      hshape.2 hbeg⟩
  · intro r hr
    by_cases hbg : (body.foldl (txViewStep cfg oid braw tcl) (initialTxView s0 oid)).begun
        = true
    · obtain ⟨w1, rest, hre, hrest⟩ := hshape.2 hbg
      rw [hre] at hr
      rcases List.mem_cons.mp hr with he | hm
      · subst he
        simp
      · exact (hrest r hm).2.1
    · have hbf : (body.foldl (txViewStep cfg oid braw tcl) (initialTxView s0 oid)).begun
          = false := by
        cases hx : (body.foldl (txViewStep cfg oid braw tcl) (initialTxView s0 oid)).begun with
        | false => rfl
        | true => exact absurd hx hbg
      rw [hshape.1 hbf] at hr
      simp at hr

/-- Witness for C1 amended: on a concrete transaction with one relation
message and one insert against the registered table, participation agrees
with the per-table view. -/
theorem claim1_amended_witness :
    (runMsgs cfgEx (stepState cfgEx sRegistered (Msg.Begin 7 100 [1, 2], 90))
        c1Body).txBeginRelMsg.contains 1
      = (c1Body.foldl (txViewStep cfgEx 1 [1, 2] 100) (initialTxView sRegistered 1)).begun :=
  (claim1_amended cfgEx sRegistered 1 7 100 [1, 2] 90 c1Body 100 [4] 0 100 rfl
    (by decide)).1

end LogicalBackup
